import Mathlib

/-!
The libMesh `System`: variables, named vectors, indexed vector families;
with the `InfPrism12` tables, `PetscMatrix`, `VTKIO` and `DTKAdapter` members the
claims refer to.

A shallow embedding of the state container declared in
`include/systems/system.h`.  Inline member functions of the header are
translated line by line.  Member functions that the header only declares
(their bodies live in `system.C`) are modelled from the specification and
marked as such in their doc comments.
-/

namespace LibMesh

/-! ## Standard containers -/

/-- The order of `std::string::operator<`: lexicographic comparison of the
character sequences, a proper prefix being smaller.  (Comparing UTF-8 bytes and
comparing code points give the same order.) -/
def string_less (a b : String) : Prop := a.toList < b.toList

instance string_less_decidable : DecidableRel string_less :=
  fun a b => inferInstanceAs (Decidable (a.toList < b.toList))

/-- A `std::map<std::string, V>`: association list, kept in ascending key
order by `insert`; iteration from `begin()` to `end()` walks `entries` from
head to tail. -/
structure StdMap (V : Type) where
  entries : List (String × V)
deriving DecidableEq

namespace StdMap

variable {V : Type}

/-- A default-constructed map. -/
def empty : StdMap V := ⟨[]⟩

/-- Linear search for key `k` (observationally `std::map::find`). -/
def findEntries : List (String × V) → String → Option V
  | [], _ => none
  | (k', v) :: rest, k => if k' = k then some v else findEntries rest k

/-- Source: `std::map::find`, with `none` for `end()`. -/
def find (m : StdMap V) (k : String) : Option V := findEntries m.entries k

/-- Source: `std::map::count`: `1` when the key is present, otherwise `0`. -/
def count (m : StdMap V) (k : String) : Nat :=
  match m.find k with
  | some _ => 1
  | none => 0

/-- Source: `std::map::size`. -/
def size (m : StdMap V) : Nat := m.entries.length

/-- Ordered insertion into a key-sorted list; an existing key keeps its value. -/
def insertEntries : List (String × V) → String → V → List (String × V)
  | [], k, v => [(k, v)]
  | (k', v') :: rest, k, v =>
    if string_less k k' then (k, v) :: (k', v') :: rest
    else if k' = k then (k', v') :: rest
    else (k', v') :: insertEntries rest k v

/-- Source: `std::map::insert(std::make_pair(k, v))`. -/
def insert (m : StdMap V) (k : String) (v : V) : StdMap V :=
  ⟨insertEntries m.entries k v⟩

/-- Overwrite every mapped value in place (a loop `for (pos = begin(); pos != end(); ++pos)`
that assigns through `pos->second`), keys untouched. -/
def mapValues (m : StdMap V) (f : String → V → V) : StdMap V :=
  ⟨m.entries.map (fun kv => (kv.1, f kv.1 kv.2))⟩

/-- The keys in iteration order. -/
def keys (m : StdMap V) : List String := m.entries.map Prod.fst

end StdMap

/-! ## `System::Variable` -/

/-- Modelled from the spec: `subdomain_id_type` (declared outside the header) is an
unsigned integral id. -/
abbrev subdomain_id_type := Nat

/-- Modelled from the spec: `FEType` (fe_type.h), the approximation-family descriptor:
discretization family and polynomial order. -/
structure FEType where
  order : Nat
  family : Nat
deriving DecidableEq

/-- Source: `std::set<subdomain_id_type>::empty()`. -/
def set_empty (s : Finset subdomain_id_type) : Bool := decide (s = ∅)

/-- Source: `std::set<subdomain_id_type>::count(x)`. -/
def set_count (s : Finset subdomain_id_type) (x : subdomain_id_type) : Nat :=
  if x ∈ s then 1 else 0

/-- The data members of `System::Variable`. -/
structure Variable where
  _name : String
  _number : Nat
  _type : FEType
  _active_subdomains : Finset subdomain_id_type
deriving DecidableEq

namespace Variable

/-- Constructor omitting the subdomain mapping: `_active_subdomains` is
default-constructed, i.e. empty. -/
def ctor (var_name : String) (var_number : Nat) (var_type : FEType) : Variable :=
  { _name := var_name, _number := var_number, _type := var_type, _active_subdomains := ∅ }

/-- Constructor taking the set of subdomain indices on which the variable is active. -/
def ctor_subdomains (var_name : String) (var_number : Nat) (var_type : FEType)
    (var_active_subdomains : Finset subdomain_id_type) : Variable :=
  { _name := var_name, _number := var_number, _type := var_type,
    _active_subdomains := var_active_subdomains }

def name (v : Variable) : String := v._name

def number (v : Variable) : Nat := v._number

def type (v : Variable) : FEType := v._type

/-- Source: `return (_active_subdomains.empty() || _active_subdomains.count(sid));` -/
def active_on_subdomain (v : Variable) (sid : subdomain_id_type) : Bool :=
  set_empty v._active_subdomains || (set_count v._active_subdomains sid != 0)

/-- Source: `return _active_subdomains.empty();` -/
def implicitly_active (v : Variable) : Bool := set_empty v._active_subdomains

end Variable

/-! ## Numeric vectors and the DOF map -/

/-- Modelled from the spec: `Number` (libmesh_common.h), the scalar type of vector
entries; exact rationals stand for the scalars. -/
abbrev Number := Rat

/-- Modelled from the spec: `NumericVector<Number>` (only forward-declared in the header),
a DOF-indexed numeric array; its size is the length of `values`. -/
structure NumericVector where
  values : List Number
deriving DecidableEq

namespace NumericVector

/-- Source: `NumericVector::size()`. -/
def size (v : NumericVector) : Nat := v.values.length

/-- Modelled from the spec: a freshly allocated, zero-filled vector of `n` entries
(the effect of `NumericVector::init(n, ...)`). -/
def zero (n : Nat) : NumericVector := ⟨List.replicate n 0⟩

end NumericVector

/-- Modelled from the spec: the DOF-mapping service (`DofMap`, only forward-declared),
of which the container consumes the total DOF count. -/
structure DofMap where
  n_dofs : Nat
deriving DecidableEq

/-! ## `System` -/

/-- The failure classes of the error taxonomy: `libmesh_error()` raised for a violated
precondition, a missing name, and `libmesh_not_implemented()`. -/
inductive LibMeshError where
  | LogicError
  | NotFound
  | NotImplemented
deriving DecidableEq

deriving instance DecidableEq for Except

/-- The data members of `System` that hold its state. -/
structure System where
  _dof_map : DofMap
  _sys_name : String
  _sys_number : Nat
  _variables : List Variable
  _variable_numbers : StdMap Nat
  _active : Bool
  _vectors : StdMap NumericVector
  _vector_projections : StdMap Bool
  _solution_projection : Bool
  _can_add_vectors : Bool
  _additional_data_written : Bool
  solution : NumericVector
  current_local_solution : NumericVector
deriving DecidableEq

/-- The indexed vector families of the header: `add_F(i)` / `get_F(i)`. -/
inductive Family where
  | adjoint_solution
  | sensitivity_solution
  | weighted_sensitivity_adjoint_solution
  | adjoint_rhs
  | sensitivity_rhs
deriving DecidableEq

/-- Modelled from the spec: the family part of a conventional vector name (the names are
built in system.C); one per `add_F` / `get_F` pair of the header. -/
def Family.base_name : Family → String
  | .adjoint_solution => "adjoint_solution"
  | .sensitivity_solution => "sensitivity_solution"
  | .weighted_sensitivity_adjoint_solution => "weighted_sensitivity_adjoint_solution"
  | .adjoint_rhs => "adjoint_rhs"
  | .sensitivity_rhs => "sensitivity_rhs"

/-- Modelled from the spec: the conventional name of entry `i` of family `F`,
`<family>_<index>` with the index in decimal. -/
def family_vector_name (F : Family) (i : Nat) : String :=
  F.base_name ++ "_" ++ Nat.repr i

namespace System

/-- Modelled from the spec: the constructor `System(es, name, number)` (body in system.C):
no variables, no vectors, active, solution projected on reinit, and the
"can still add vectors" gate open. -/
def ctor (name : String) (number : Nat) : System :=
  { _dof_map := ⟨0⟩,
    _sys_name := name,
    _sys_number := number,
    _variables := [],
    _variable_numbers := StdMap.empty,
    _active := true,
    _vectors := StdMap.empty,
    _vector_projections := StdMap.empty,
    _solution_projection := true,
    _can_add_vectors := true,
    _additional_data_written := false,
    solution := NumericVector.zero 0,
    current_local_solution := NumericVector.zero 0 }

/-- Source: `return _sys_name;` -/
def name (s : System) : String := s._sys_name

/-- Source: `return _sys_number;` -/
def number (s : System) : Nat := s._sys_number

/-- Source: `return _active;` -/
def active (s : System) : Bool := s._active

/-- Source: `_active = true;` -/
def activate (s : System) : System := { s with _active := true }

/-- Source: `_active = false;` -/
def deactivate (s : System) : System := { s with _active := false }

/-- Source: `return _variables.size();` -/
def n_vars (s : System) : Nat := s._variables.length

/-- Source: `return (_vectors.count(vec_name));` -/
def have_vector (s : System) (vec_name : String) : Bool :=
  s._vectors.count vec_name != 0

/-- Source: `return _vectors.size();` -/
def n_vectors (s : System) : Nat := s._vectors.size

/-- The (name, vector) pairs visited by `for (it = vectors_begin(); it != vectors_end(); ++it)`:
`vectors_begin()` is `_vectors.begin()` and `vectors_end()` is `_vectors.end()`. -/
def vectors_range (s : System) : List (String × NumericVector) := s._vectors.entries

/-- Source: `project_solution_on_reinit() = b`: assignment through the returned reference to
`_solution_projection`. -/
def set_project_solution_on_reinit (s : System) (b : Bool) : System :=
  { s with _solution_projection := b }

/-- Modelled from the spec: `n_dofs()` (body in system.C), the total DOF count of the
DOF-mapping service. -/
def n_dofs (s : System) : Nat := s._dof_map.n_dofs

/-- Modelled from the spec: `has_variable(var)` (body in system.C): whether a variable of
that name is registered. -/
def has_variable (s : System) (var : String) : Bool :=
  s._variable_numbers.count var != 0

/-- Modelled from the spec: `variable_number(var)` (body in system.C): the ordinal of the
variable named `var`, failing (NotFound) if absent. -/
def variable_number (s : System) (var : String) : Except LibMeshError Nat :=
  match s._variable_numbers.find var with
  | some n => .ok n
  | none => .error .NotFound

/-- Modelled from the spec: `add_variable(var, type, active_subdomains)` (body in system.C):
fails if `var` is already registered, leaving the System as it was; otherwise appends
the variable with the next ordinal and returns that ordinal.  A `none` subdomain set is
the `NULL` default. -/
def add_variable (s : System) (var : String) (type : FEType)
    (active_subdomains : Option (Finset subdomain_id_type)) :
    Except LibMeshError Nat × System :=
  if s.has_variable var then (.error .LogicError, s)
  else
    let curr_n_vars := s.n_vars
    let v := match active_subdomains with
      | none => Variable.ctor var curr_n_vars type
      | some subdomains => Variable.ctor_subdomains var curr_n_vars type subdomains
    (.ok curr_n_vars,
      { s with _variables := s._variables ++ [v],
               _variable_numbers := s._variable_numbers.insert var curr_n_vars })

/-- Modelled from the spec: `add_vector(vec_name, projections)` (body in system.C): fails
(LogicError) if the store is sealed or if `vec_name` already exists, leaving the System
as it was; otherwise allocates a zero-filled vector sized to the current DOF count,
records the projection flag and returns the vector. -/
def add_vector (s : System) (vec_name : String) (projections : Bool) :
    Except LibMeshError NumericVector × System :=
  if !s._can_add_vectors then (.error .LogicError, s)
  else if s.have_vector vec_name then (.error .LogicError, s)
  else
    let buf := NumericVector.zero s.n_dofs
    (.ok buf,
      { s with _vectors := s._vectors.insert vec_name buf,
               _vector_projections := s._vector_projections.insert vec_name projections })

/-- Modelled from the spec: `request_vector(vec_name)` (body in system.C): the vector of
that name, or `none` for the `NULL` pointer when there is none; never fails. -/
def request_vector (s : System) (vec_name : String) : Option NumericVector :=
  s._vectors.find vec_name

/-- Modelled from the spec: `get_vector(vec_name)` (body in system.C): the vector of that
name, failing (NotFound) if absent. -/
def get_vector (s : System) (vec_name : String) : Except LibMeshError NumericVector :=
  match s._vectors.find vec_name with
  | some v => .ok v
  | none => .error .NotFound

/-- A caller overwriting the entries of the named vector through the reference
returned by `get_vector`; the name set is untouched. -/
def write_vector (s : System) (vec_name : String) (contents : NumericVector) : System :=
  { s with _vectors :=
             s._vectors.mapValues (fun k v => if k = vec_name then contents else v) }

/-- Modelled from the spec: `add_F(i)` (bodies in system.C), for each indexed family `F`:
creates-or-returns the backing vector named by convention, built on `add_vector`. -/
def add_indexed (s : System) (F : Family) (i : Nat) :
    Except LibMeshError NumericVector × System :=
  match s.request_vector (family_vector_name F i) with
  | some v => (.ok v, s)
  | none => s.add_vector (family_vector_name F i) true

/-- Modelled from the spec: `get_F(i)` (bodies in system.C): requires prior creation of
the backing vector and fails otherwise. -/
def get_indexed (s : System) (F : Family) (i : Nat) : Except LibMeshError NumericVector :=
  s.get_vector (family_vector_name F i)

/-! The ten accessors of the header, `add_F(i)` and `get_F(i)` for each family. -/

def add_adjoint_solution (s : System) (i : Nat) := s.add_indexed .adjoint_solution i

def get_adjoint_solution (s : System) (i : Nat) := s.get_indexed .adjoint_solution i

def add_sensitivity_solution (s : System) (i : Nat) := s.add_indexed .sensitivity_solution i

def get_sensitivity_solution (s : System) (i : Nat) := s.get_indexed .sensitivity_solution i

def add_weighted_sensitivity_adjoint_solution (s : System) (i : Nat) :=
  s.add_indexed .weighted_sensitivity_adjoint_solution i

def get_weighted_sensitivity_adjoint_solution (s : System) (i : Nat) :=
  s.get_indexed .weighted_sensitivity_adjoint_solution i

def add_adjoint_rhs (s : System) (i : Nat) := s.add_indexed .adjoint_rhs i

def get_adjoint_rhs (s : System) (i : Nat) := s.get_indexed .adjoint_rhs i

def add_sensitivity_rhs (s : System) (i : Nat) := s.add_indexed .sensitivity_rhs i

def get_sensitivity_rhs (s : System) (i : Nat) := s.get_indexed .sensitivity_rhs i

/-- Modelled from the spec: `init()` (body in system.C): first initialization.  The DOF
count becomes known from the DOF-mapping service `dm`, every managed vector is sized
to it and zero-filled, and the "can still add vectors" gate closes. -/
def init (s : System) (dm : DofMap) : System :=
  { s with _dof_map := dm,
           solution := NumericVector.zero dm.n_dofs,
           current_local_solution := NumericVector.zero dm.n_dofs,
           _vectors := s._vectors.mapValues (fun _ _ => NumericVector.zero dm.n_dofs),
           _can_add_vectors := false }

/-- Modelled from the spec: the projection contract shared by `reinit`, `restrict_vectors`
and `prolong_vectors` (bodies in system.C).  `dm` is the rebuilt DOF map and
`project_vector` the external projection service.  A vector whose entry in
`_vector_projections` is true is projected; any other vector is resized to the new DOF
count and zero-filled.  The solution follows `_solution_projection`, and the ghosted
copy is refreshed from it. -/
def project_vectors (project_vector : NumericVector → NumericVector)
    (s : System) (dm : DofMap) : System :=
  let new_solution :=
    if s._solution_projection then project_vector s.solution
    else NumericVector.zero dm.n_dofs
  { s with _dof_map := dm,
           solution := new_solution,
           current_local_solution := new_solution,
           _vectors := s._vectors.mapValues (fun k v =>
             if s._vector_projections.find k = some true then project_vector v
             else NumericVector.zero dm.n_dofs) }

/-- Modelled from the spec: `reinit()` triggers projection. -/
def reinit (project_vector : NumericVector → NumericVector) (s : System) (dm : DofMap) :
    System :=
  project_vectors project_vector s dm

/-- Modelled from the spec: `restrict_vectors()`, the coarsening variant of the projection
contract. -/
def restrict_vectors (project_vector : NumericVector → NumericVector) (s : System)
    (dm : DofMap) : System :=
  project_vectors project_vector s dm

/-- Modelled from the spec: `prolong_vectors()`, the refinement variant of the projection
contract. -/
def prolong_vectors (project_vector : NumericVector → NumericVector) (s : System)
    (dm : DofMap) : System :=
  project_vectors project_vector s dm

end System

/-- The calls a client can issue on a System, for reasoning about call sequences. -/
inductive Op where
  | add_vector (vec_name : String) (projections : Bool)
  | add_variable (var : String) (type : FEType)
      (active_subdomains : Option (Finset subdomain_id_type))
  | add_indexed (F : Family) (i : Nat)
  | write_vector (vec_name : String) (contents : NumericVector)
  | set_project_solution_on_reinit (b : Bool)
  | activate
  | deactivate
  | init (dm : DofMap)
  | reinit (dm : DofMap)
  | restrict_vectors (dm : DofMap)
  | prolong_vectors (dm : DofMap)

/-- The System after one call; a failed call leaves whatever state the call left. -/
def System.step (project_vector : NumericVector → NumericVector) (s : System) : Op → System
  | .add_vector vec_name projections => (s.add_vector vec_name projections).2
  | .add_variable var type active_subdomains => (s.add_variable var type active_subdomains).2
  | .add_indexed F i => (s.add_indexed F i).2
  | .write_vector vec_name contents => s.write_vector vec_name contents
  | .set_project_solution_on_reinit b => s.set_project_solution_on_reinit b
  | .activate => s.activate
  | .deactivate => s.deactivate
  | .init dm => s.init dm
  | .reinit dm => s.reinit project_vector dm
  | .restrict_vectors dm => s.restrict_vectors project_vector dm
  | .prolong_vectors dm => s.prolong_vectors project_vector dm

/-- The System after a sequence of calls, issued left to right. -/
def System.run (project_vector : NumericVector → NumericVector) (s : System)
    (ops : List Op) : System :=
  ops.foldl (System.step project_vector) s

/-- A sequence of `add_vector` calls, issued left to right; each entry gives the name and
the projection flag of one call. -/
def System.add_vectors (s : System) (regs : List (String × Bool)) : System :=
  regs.foldl (fun acc r => (acc.add_vector r.1 r.2).2) s

/-- The value of a decimal digit character. -/
def digit_value (c : Char) : Nat := c.toNat - 48

/-- The number a string of decimal digits denotes. -/
def decimal_value (l : List Char) : Nat := l.foldl (fun a c => 10 * a + digit_value c) 0

/-! ## `System::BuildProjectionList` -/

/-- The public data member of `System::BuildProjectionList`: the `send_list` of old DOF
indices, unsorted and possibly with duplicates until `unique()` is called. -/
structure BuildProjectionList where
  send_list : List Nat
deriving DecidableEq

/-- The effect of `std::unique` followed by dropping the tail: of every run of equal
adjacent entries only one is kept. -/
def std_unique : List Nat → List Nat
  | [] => []
  | [x] => [x]
  | x :: y :: rest => if x = y then std_unique (y :: rest) else x :: std_unique (y :: rest)

namespace BuildProjectionList

/-- Modelled from the spec: `join(other)` (body in system_projection.C): the join of the
send-list builder is list concatenation, the other list appended to this one. -/
def join (self other : BuildProjectionList) : BuildProjectionList :=
  ⟨self.send_list ++ other.send_list⟩

/-- Modelled from the spec: `unique()` (body in system_projection.C): the list is sorted
and then deduplicated. -/
def unique (self : BuildProjectionList) : BuildProjectionList :=
  ⟨std_unique (self.send_list.insertionSort (· ≤ ·))⟩

end BuildProjectionList

/-! ## Sensitivity and adjoint entry points of the base `System` -/

/-- The class `ParameterVector` is only forward-declared in the header; the bodies below
ignore the argument. -/
structure ParameterVector where
  values : List Number
deriving DecidableEq

/-- The class `QoISet` is only forward-declared in the header; the bodies below ignore
the argument. -/
structure QoISet where
  indices : List Bool
deriving DecidableEq

/-- The class `SensitivityData` is only forward-declared in the header; it is the output
argument of the parameter-sensitivity entry points. -/
structure SensitivityData where
  values : List (List Number)
deriving DecidableEq

namespace System

/-- Source: `libmesh_not_implemented();` -/
def assemble_residual_derivatives (s : System) (_parameters : ParameterVector) :
    Except LibMeshError Unit × System :=
  (.error .NotImplemented, s)

/-- Source: `libmesh_not_implemented();` -/
def sensitivity_solve (s : System) (_parameters : ParameterVector) :
    Except LibMeshError (Nat × Number) × System :=
  (.error .NotImplemented, s)

/-- Source: `libmesh_not_implemented();` -/
def weighted_sensitivity_solve (s : System) (_parameters _weights : ParameterVector) :
    Except LibMeshError (Nat × Number) × System :=
  (.error .NotImplemented, s)

/-- Source: `libmesh_not_implemented();` -/
def adjoint_solve (s : System) (_qoi_indices : QoISet) :
    Except LibMeshError (Nat × Number) × System :=
  (.error .NotImplemented, s)

/-- Source: `libmesh_not_implemented();` -/
def weighted_sensitivity_adjoint_solve (s : System) (_parameters _weights : ParameterVector)
    (_qoi_indices : QoISet) : Except LibMeshError (Nat × Number) × System :=
  (.error .NotImplemented, s)

/-- Source: `libmesh_not_implemented();`  The third component is the output argument
`sensitivities` after the call. -/
def adjoint_qoi_parameter_sensitivity (s : System) (_qoi_indices : QoISet)
    (_parameters : ParameterVector) (sensitivities : SensitivityData) :
    Except LibMeshError Unit × System × SensitivityData :=
  (.error .NotImplemented, s, sensitivities)

/-- Source: `libmesh_not_implemented();`  The third component is the output argument
`sensitivities` after the call. -/
def forward_qoi_parameter_sensitivity (s : System) (_qoi_indices : QoISet)
    (_parameters : ParameterVector) (sensitivities : SensitivityData) :
    Except LibMeshError Unit × System × SensitivityData :=
  (.error .NotImplemented, s, sensitivities)

/-- Source: `libmesh_not_implemented();`  The third component is the output argument
`hessian` after the call. -/
def qoi_parameter_hessian (s : System) (_qoi_indices : QoISet)
    (_parameters : ParameterVector) (hessian : SensitivityData) :
    Except LibMeshError Unit × System × SensitivityData :=
  (.error .NotImplemented, s, hessian)

/-- Source: `libmesh_not_implemented();`  The third component is the output argument
`product` after the call. -/
def qoi_parameter_hessian_vector_product (s : System) (_qoi_indices : QoISet)
    (_parameters _vector : ParameterVector) (product : SensitivityData) :
    Except LibMeshError Unit × System × SensitivityData :=
  (.error .NotImplemented, s, product)

end System

/-! ## Calls outside `System` -/

/-- How a call ends when it does not return: a failed `libmesh_assert`, a call of
`libmesh_error()`, or a `std::out_of_range` thrown by the standard library. -/
inductive Abort where
  | assert_failed
  | libmesh_error
  | out_of_range
deriving DecidableEq

/-! ## `InfPrism12` -/

namespace InfPrism12

/-- The number of vertices of the element (declared in the class header, which is not
among the sources): an infinite prism has 6. -/
def n_vertices : Nat := 6

/-- The number of nodes of the element (declared in the class header, which is not among
the sources): 12. -/
def n_nodes : Nat := 12

/-- The table `InfPrism12::edge_nodes_map[6][3]`. -/
def edge_nodes_map : List (List Nat) :=
  [ [0, 1, 6],
    [1, 2, 7],
    [0, 2, 8],
    [0, 3, 99],
    [1, 4, 99],
    [2, 5, 99] ]

/-- The table `InfPrism12::_second_order_adjacent_vertices[6][2]`. -/
def _second_order_adjacent_vertices : List (List Nat) :=
  [ [0, 1],
    [1, 2],
    [0, 2],
    [3, 4],
    [4, 5],
    [3, 5] ]

/-- Entry `[i][j]` of a two-dimensional table. -/
def table_at (tbl : List (List Nat)) (i j : Nat) : Nat := (tbl.getD i []).getD j 0

/-- The three assertions, then
`return _second_order_adjacent_vertices[n-this->n_vertices()][v];` -/
def second_order_adjacent_vertex (n v : Nat) : Except Abort Nat :=
  if ¬ (n ≥ n_vertices) then .error .assert_failed
  else if ¬ (n < n_nodes) then .error .assert_failed
  else if ¬ (v < 2) then .error .assert_failed
  else .ok (table_at _second_order_adjacent_vertices (n - n_vertices) v)

/-- The table `InfPrism12::_embedding_matrix[4][12][12]`, entry by entry as in the source;
the decimal literals are binary fractions and are read as exact rationals. -/
def _embedding_matrix : List (List (List Rat)) :=
  [
    [
      [1.0, 0.0, 0.0, 0.0, 0.0, 0.0, 0.0, 0.0, 0.0, 0.0, 0.0, 0.0],
      [0.0, 0.0, 0.0, 0.0, 0.0, 0.0, 1.0, 0.0, 0.0, 0.0, 0.0, 0.0],
      [0.0, 0.0, 0.0, 0.0, 0.0, 0.0, 0.0, 0.0, 1.0, 0.0, 0.0, 0.0],
      [0.0, 0.0, 0.0, 1.0, 0.0, 0.0, 0.0, 0.0, 0.0, 0.0, 0.0, 0.0],
      [0.0, 0.0, 0.0, 0.0, 0.0, 0.0, 0.0, 0.0, 0.0, 1.0, 0.0, 0.0],
      [0.0, 0.0, 0.0, 0.0, 0.0, 0.0, 0.0, 0.0, 0.0, 0.0, 0.0, 1.0],
      [0.375, -0.125, 0.0, 0.0, 0.0, 0.0, 0.75, 0.0, 0.0, 0.0, 0.0, 0.0],
      [0.0, -0.125, -0.125, 0.0, 0.0, 0.0, 0.5, 0.25, 0.5, 0.0, 0.0, 0.0],
      [0.375, 0.0, -0.125, 0.0, 0.0, 0.0, 0.0, 0.0, 0.75, 0.0, 0.0, 0.0],
      [0.0, 0.0, 0.0, 0.375, -0.125, 0.0, 0.0, 0.0, 0.0, 0.75, 0.0, 0.0],
      [0.0, 0.0, 0.0, 0.0, -0.125, -0.125, 0.0, 0.0, 0.0, 0.5, 0.25, 0.5],
      [0.0, 0.0, 0.0, 0.375, 0.0, -0.125, 0.0, 0.0, 0.0, 0.0, 0.0, 0.75]
    ],
    [
      [0.0, 0.0, 0.0, 0.0, 0.0, 0.0, 1.0, 0.0, 0.0, 0.0, 0.0, 0.0],
      [0.0, 1.0, 0.0, 0.0, 0.0, 0.0, 0.0, 0.0, 0.0, 0.0, 0.0, 0.0],
      [0.0, 0.0, 0.0, 0.0, 0.0, 0.0, 0.0, 1.0, 0.0, 0.0, 0.0, 0.0],
      [0.0, 0.0, 0.0, 0.0, 0.0, 0.0, 0.0, 0.0, 0.0, 1.0, 0.0, 0.0],
      [0.0, 0.0, 0.0, 0.0, 1.0, 0.0, 0.0, 0.0, 0.0, 0.0, 0.0, 0.0],
      [0.0, 0.0, 0.0, 0.0, 0.0, 0.0, 0.0, 0.0, 0.0, 0.0, 1.0, 0.0],
      [-0.125, 0.375, 0.0, 0.0, 0.0, 0.0, 0.75, 0.0, 0.0, 0.0, 0.0, 0.0],
      [0.0, 0.375, -0.125, 0.0, 0.0, 0.0, 0.0, 0.75, 0.0, 0.0, 0.0, 0.0],
      [-0.125, 0.0, -0.125, 0.0, 0.0, 0.0, 0.5, 0.5, 0.25, 0.0, 0.0, 0.0],
      [0.0, 0.0, 0.0, -0.125, 0.375, 0.0, 0.0, 0.0, 0.0, 0.75, 0.0, 0.0],
      [0.0, 0.0, 0.0, 0.0, 0.375, -0.125, 0.0, 0.0, 0.0, 0.0, 0.75, 0.0],
      [0.0, 0.0, 0.0, -0.125, 0.0, -0.125, 0.0, 0.0, 0.0, 0.5, 0.5, 0.25]
    ],
    [
      [0.0, 0.0, 0.0, 0.0, 0.0, 0.0, 0.0, 0.0, 1.0, 0.0, 0.0, 0.0],
      [0.0, 0.0, 0.0, 0.0, 0.0, 0.0, 0.0, 1.0, 0.0, 0.0, 0.0, 0.0],
      [0.0, 0.0, 1.0, 0.0, 0.0, 0.0, 0.0, 0.0, 0.0, 0.0, 0.0, 0.0],
      [0.0, 0.0, 0.0, 0.0, 0.0, 0.0, 0.0, 0.0, 0.0, 0.0, 0.0, 1.0],
      [0.0, 0.0, 0.0, 0.0, 0.0, 0.0, 0.0, 0.0, 0.0, 0.0, 1.0, 0.0],
      [0.0, 0.0, 0.0, 0.0, 0.0, 1.0, 0.0, 0.0, 0.0, 0.0, 0.0, 0.0],
      [-0.125, -0.125, 0.0, 0.0, 0.0, 0.0, 0.25, 0.5, 0.5, 0.0, 0.0, 0.0],
      [0.0, -0.125, 0.375, 0.0, 0.0, 0.0, 0.0, 0.75, 0.0, 0.0, 0.0, 0.0],
      [-0.125, 0.0, 0.375, 0.0, 0.0, 0.0, 0.0, 0.0, 0.75, 0.0, 0.0, 0.0],
      [0.0, 0.0, 0.0, -0.125, -0.125, 0.0, 0.0, 0.0, 0.0, 0.25, 0.5, 0.5],
      [0.0, 0.0, 0.0, 0.0, -0.125, 0.375, 0.0, 0.0, 0.0, 0.0, 0.75, 0.0],
      [0.0, 0.0, 0.0, -0.125, 0.0, 0.375, 0.0, 0.0, 0.0, 0.0, 0.0, 0.75]
    ],
    [
      [0.0, 0.0, 0.0, 0.0, 0.0, 0.0, 1.0, 0.0, 0.0, 0.0, 0.0, 0.0],
      [0.0, 0.0, 0.0, 0.0, 0.0, 0.0, 0.0, 1.0, 0.0, 0.0, 0.0, 0.0],
      [0.0, 0.0, 0.0, 0.0, 0.0, 0.0, 0.0, 0.0, 1.0, 0.0, 0.0, 0.0],
      [0.0, 0.0, 0.0, 0.0, 0.0, 0.0, 0.0, 0.0, 0.0, 1.0, 0.0, 0.0],
      [0.0, 0.0, 0.0, 0.0, 0.0, 0.0, 0.0, 0.0, 0.0, 0.0, 1.0, 0.0],
      [0.0, 0.0, 0.0, 0.0, 0.0, 0.0, 0.0, 0.0, 0.0, 0.0, 0.0, 1.0],
      [-0.125, 0.0, -0.125, 0.0, 0.0, 0.0, 0.5, 0.5, 0.25, 0.0, 0.0, 0.0],
      [-0.125, -0.125, 0.0, 0.0, 0.0, 0.0, 0.25, 0.5, 0.5, 0.0, 0.0, 0.0],
      [0.0, -0.125, -0.125, 0.0, 0.0, 0.0, 0.5, 0.25, 0.5, 0.0, 0.0, 0.0],
      [0.0, 0.0, 0.0, -0.125, 0.0, -0.125, 0.0, 0.0, 0.0, 0.5, 0.5, 0.25],
      [0.0, 0.0, 0.0, -0.125, -0.125, 0.0, 0.0, 0.0, 0.0, 0.25, 0.5, 0.5],
      [0.0, 0.0, 0.0, 0.0, -0.125, -0.125, 0.0, 0.0, 0.0, 0.5, 0.25, 0.5]
    ]
  ]

/-- Entry `_embedding_matrix[c][i][j]`. -/
def embedding_matrix (c i j : Nat) : Rat :=
  (((_embedding_matrix.getD c []).getD i []).getD j 0)

/-- The sum of row `i` of `_embedding_matrix[c]` over the 12 parent nodes. -/
def embedding_row_sum (c i : Nat) : Rat :=
  ((List.range n_nodes).map (fun j => embedding_matrix c i j)).sum

/-- The value the embedding gives node `i` of child `c` for a parent nodal field:
the combination of the 12 parent values with the weights of row `i`. -/
def child_nodal_value (parent : Nat → Rat) (c i : Nat) : Rat :=
  ((List.range n_nodes).map (fun j => embedding_matrix c i j * parent j)).sum

end InfPrism12

/-! ## `DTKAdapter` -/

/-- The class `EquationSystems` is only forward-declared in the header: the systems it
manages, by index. -/
structure EquationSystems where
  systems : List System

/-- The number of systems, `es.n_systems()`. -/
def EquationSystems.n_systems (es : EquationSystems) : Nat := es.systems.length

namespace DTKAdapter

/-- The loop `for (i = 0; i < es.n_systems(); i++)` of `find_sys`, entered at index `i` with
the systems from `i` on still to visit: the first system with
`has_variable(var_name)` ends the loop (`break`) with `sys` pointing to it; without
such a system `sys` stays `NULL`. -/
def find_sys_loop (var_name : String) : List System → Nat → Option (Nat × System)
  | [], _ => none
  | sys :: rest, i =>
    if sys.has_variable var_name then some (i, sys)
    else find_sys_loop var_name rest (i + 1)

/-- `DTKAdapter::find_sys`: the loop, then `libmesh_assert(sys); return sys;`.  The
returned pointer is given as the index of the system together with the system. -/
def find_sys (es : EquationSystems) (var_name : String) : Except Abort (Nat × System) :=
  match find_sys_loop var_name es.systems 0 with
  | none => .error .assert_failed
  | some found => .ok found

end DTKAdapter

/-! ## `PetscMatrix` -/

/-- The PETSc integer type `PetscInt`. -/
abbrev PetscInt := Int

/-- One row as `MatGetRow` hands it out: `ncols` stored entries, each a column index
(`petsc_cols[k]`) with its value (`petsc_row[k]`). -/
structure MatRow where
  entries : List (PetscInt × Number)
deriving DecidableEq

/-- The array `petsc_cols`. -/
def MatRow.cols (r : MatRow) : List PetscInt := r.entries.map Prod.fst

/-- The array `petsc_row`. -/
def MatRow.vals (r : MatRow) : List Number := r.entries.map Prod.snd

/-- The count `ncols`. -/
def MatRow.ncols (r : MatRow) : Nat := r.entries.length

/-- A PETSc `Mat` object as far as the members below observe it: whether it is assembled
and its rows. -/
structure Mat where
  assembled : Bool
  rows : List MatRow
deriving DecidableEq

/-- The PETSc call `MatGetRow(mat, i_val, ...)`; `none` stands for a nonzero error code
(no such row). -/
def MatGetRow (mat : Mat) (i_val : PetscInt) : Option MatRow :=
  if 0 ≤ i_val then mat.rows[i_val.toNat]? else none

/-- The data members of `PetscMatrix` (`_is_initialized` is inherited from
`SparseMatrix`). -/
structure PetscMatrix where
  _mat : Mat
  _is_initialized : Bool
  _destroy_mat_on_exit : Bool
deriving DecidableEq

/-- The conversion `static_cast<PetscInt>(x)` of an unsigned index, for 32-bit index
types: values below `2^31` are kept, larger ones wrap to negative numbers. -/
def static_cast_PetscInt (x : Nat) : PetscInt :=
  if x % 2 ^ 32 < 2 ^ 31 then ((x % 2 ^ 32 : Nat) : Int) else ((x % 2 ^ 32 : Nat) : Int) - 2 ^ 32

/-- The binary search shared by `std::lower_bound` and `std::upper_bound` on the range
`[first, first + len)` of `a`:
`while (len > 0) { half = len >> 1; middle = first + half;
if (p(*middle)) { first = middle + 1; len = len - half - 1; } else len = half; }`.
The first argument bounds the number of iterations. -/
def bisect (p : PetscInt → Bool) (a : List PetscInt) : Nat → Nat → Nat → Nat
  | 0, first, _ => first
  | fuel + 1, first, len =>
    if 0 < len then
      if p (a.getD (first + len / 2) 0) then
        bisect p a fuel (first + len / 2 + 1) (len - len / 2 - 1)
      else bisect p a fuel first (len / 2)
    else first

/-- `std::lower_bound(a, a + n, val) - a`: the search with `*middle < val`. -/
def lower_bound (a : List PetscInt) (val : PetscInt) : Nat :=
  bisect (fun x => decide (x < val)) a a.length 0 a.length

/-- `std::upper_bound(a, a + n, val) - a`: the search with `!(val < *middle)`. -/
def upper_bound (a : List PetscInt) (val : PetscInt) : Nat :=
  bisect (fun x => !decide (val < x)) a a.length 0 a.length

/-- `std::equal_range(a, a + n, val)`, as the pair of offsets of its two iterators. -/
def equal_range (a : List PetscInt) (val : PetscInt) : Nat × Nat :=
  (lower_bound a val, upper_bound a val)

namespace PetscMatrix

/-- The default constructor: `_destroy_mat_on_exit(true)`; the handle `_mat` is not set
(`uninitialized` is whatever it holds) and the matrix is not initialized. -/
def ctor (uninitialized : Mat) : PetscMatrix :=
  { _mat := uninitialized, _is_initialized := false, _destroy_mat_on_exit := true }

/-- The constructor taking an existing `Mat`: `_destroy_mat_on_exit(false)`, then
`this->_mat = m; this->_is_initialized = true;`. -/
def ctor_mat (m : Mat) : PetscMatrix :=
  { _mat := m, _is_initialized := true, _destroy_mat_on_exit := false }

/-- `SparseMatrix::initialized()`. -/
def initialized (m : PetscMatrix) : Bool := m._is_initialized

/-- `PetscMatrix::closed()`: asserts `initialized()`, then asks `MatAssembled`. -/
def closed (m : PetscMatrix) : Except Abort Bool :=
  if m.initialized then .ok m._mat.assembled else .error .assert_failed

/-- `PetscMatrix::clear()`.  The second component lists the `Mat` objects the call
destroyed; `LibMeshMatDestroy` (a macro defined outside the sources) gives the handle
left in `_mat` by the destruction. -/
def clear (LibMeshMatDestroy : Mat → Mat) (m : PetscMatrix) : PetscMatrix × List Mat :=
  if m.initialized && m._destroy_mat_on_exit then
    ({ m with _mat := LibMeshMatDestroy m._mat, _is_initialized := false }, [m._mat])
  else (m, [])

/-- The destructor: `this->clear();`. -/
def dtor (LibMeshMatDestroy : Mat → Mat) (m : PetscMatrix) : PetscMatrix × List Mat :=
  clear LibMeshMatDestroy m

/-- A number of `clear()` calls in a row, with all the `Mat` objects they destroyed. -/
def clear_times (LibMeshMatDestroy : Mat → Mat) : Nat → PetscMatrix → PetscMatrix × List Mat
  | 0, m => (m, [])
  | n + 1, m =>
    ((clear_times LibMeshMatDestroy n (clear LibMeshMatDestroy m).1).1,
      (clear LibMeshMatDestroy m).2 ++
        (clear_times LibMeshMatDestroy n (clear LibMeshMatDestroy m).1).2)

/-- `PetscMatrix::operator()(i, j)`. -/
def get (m : PetscMatrix) (i j : Nat) : Except Abort Number :=
  if ¬ m.initialized then .error .assert_failed
  else
    let i_val := static_cast_PetscInt i
    let j_val := static_cast_PetscInt j
    match m.closed with
    | .error e => .error e
    | .ok false => .error .assert_failed
    | .ok true =>
      match MatGetRow m._mat i_val with
      | none => .error .libmesh_error
      | some row =>
        let p := equal_range row.cols j_val
        if p.1 ≠ p.2 then
          if ¬ (p.1 < row.ncols) then .error .assert_failed
          else if ¬ (row.cols.getD p.1 0 = j_val) then .error .assert_failed
          else .ok (row.vals.getD p.1 0)
        else .ok 0

end PetscMatrix

/-! ## `VTKIO` -/

namespace VTKIO

/-- `std::string::rfind(".")` for a one-character pattern `c`: the position of the last
occurrence, `none` for `std::string::npos`. -/
def rfind : List Char → Char → Option Nat
  | [], _ => none
  | x :: xs, c =>
    match rfind xs c with
    | some pos => some (pos + 1)
    | none => if x = c then some 0 else none

/-- `std::string::substr(pos, n)`: throws `std::out_of_range` when `pos > size()`, as for
`npos`; otherwise the characters from `pos` on, at most `n` of them. -/
def substr (s : List Char) (pos : Option Nat) (n : Nat) : Except Abort (List Char) :=
  match pos with
  | none => .error .out_of_range
  | some start => if start > s.length then .error .out_of_range else .ok ((s.drop start).take n)

/-- What `write_nodal_data` hands to the VTK writer once it proceeds: the file name and
the names of the nodal arrays. -/
structure WriterCall where
  file_name : String
  array_names : List String
deriving DecidableEq

/-- `VTKIO::write_nodal_data`.  Without VTK (`LIBMESH_HAVE_VTK` undefined) the call is an
error.  With VTK the call is
`libmesh_assert(fname.substr(fname.rfind("."),fname.size())==".pvtu");` followed by the
hand-over of grid, solution arrays and file name to the VTK writer. -/
def write_nodal_data (LIBMESH_HAVE_VTK : Bool) (fname : String) (_soln : List Number)
    (names : List String) : Except Abort WriterCall :=
  if ¬ LIBMESH_HAVE_VTK then .error .libmesh_error
  else
    match substr fname.toList (rfind fname.toList '.') fname.toList.length with
    | .error e => .error e
    | .ok extension =>
      if extension = ".pvtu".toList then .ok ⟨fname, names⟩
      else .error .assert_failed

/-- `VTKIO::write`: `this->write_nodal_data(name, soln, names);` with an empty `soln` and
empty `names`. -/
def write (LIBMESH_HAVE_VTK : Bool) (name : String) : Except Abort WriterCall :=
  write_nodal_data LIBMESH_HAVE_VTK name [] []

/-- The VTK cell types that `read` tells apart; `other` is any further type code. -/
inductive VTKCellType where
  | VTK_TETRA
  | VTK_WEDGE
  | VTK_HEXAHEDRON
  | VTK_PYRAMID
  | VTK_QUADRATIC_HEXAHEDRON
  | VTK_QUADRATIC_TETRA
  | other (code : Nat)
deriving DecidableEq

/-- The element classes `read` instantiates. -/
inductive ElemClass where
  | Tet4
  | Prism6
  | Hex8
  | Pyramid5
  | Hex20
  | Tet10
deriving DecidableEq

/-- The `switch(cell->GetCellType())` of `read`: the element created for a cell, or
`libmesh_error()` for a type that is not implemented. -/
def new_elem : VTKCellType → Except Abort ElemClass
  | .VTK_TETRA => .ok .Tet4
  | .VTK_WEDGE => .ok .Prism6
  | .VTK_HEXAHEDRON => .ok .Hex8
  | .VTK_PYRAMID => .ok .Pyramid5
  | .VTK_QUADRATIC_HEXAHEDRON => .ok .Hex20
  | .VTK_QUADRATIC_TETRA => .ok .Tet10
  | .other _ => .error .libmesh_error

/-- The grid the VTK reader delivers: its number of points and the types of its cells. -/
structure vtkUnstructuredGrid where
  n_points : Nat
  cells : List VTKCellType
deriving DecidableEq

/-- What `read` leaves behind: the flags `elems_of_dimension`, and of the mesh its
dimension, its number of nodes and its elements in the order they were added. -/
structure ReadResult where
  elems_of_dimension : List Bool
  mesh_dimension : Nat
  n_nodes : Nat
  elems : List ElemClass
deriving DecidableEq

/-- The loop over the VTK cells: each cell gives an element `elem`, sets
`elems_of_dimension[elem->dim()] = true` and adds the element to the mesh; a cell of
an unsupported type aborts.  `dim` is `Elem::dim()` of the element classes (declared in
headers that are not among the sources). -/
def read_cells (dim : ElemClass → Nat) :
    List VTKCellType → List Bool × List ElemClass → Except Abort (List Bool × List ElemClass)
  | [], acc => .ok acc
  | cell :: rest, (elems_of_dimension, elems) =>
    match new_elem cell with
    | .error e => .error e
    | .ok elem =>
      read_cells dim rest (elems_of_dimension.set (dim elem) true, elems ++ [elem])

/-- The loop `for (i = 0; i != 4; ++i) if (elems_of_dimension[i]) mesh.set_mesh_dimension(i);`
entered at index `i` with `count` indices to go; the value is the mesh dimension at the
end. -/
def set_dimension_loop (elems_of_dimension : List Bool) : Nat → Nat → Nat → Nat
  | 0, _, mesh_dimension => mesh_dimension
  | count + 1, i, mesh_dimension =>
    set_dimension_loop elems_of_dimension count (i + 1)
      (if elems_of_dimension.getD i false then i else mesh_dimension)

/-- `VTKIO::read` in a build with VTK.  `processor_id` is `libMesh::processor_id()`,
`cleared_dimension` the mesh dimension left by `mesh.clear()`, `LIBMESH_DIM` the
configured space dimension, `grid` what the VTK reader got from the file. -/
def read (dim : ElemClass → Nat) (processor_id cleared_dimension LIBMESH_DIM : Nat)
    (grid : vtkUnstructuredGrid) : Except Abort ReadResult :=
  if processor_id ≠ 0 then .error .assert_failed
  else
    match read_cells dim grid.cells (List.replicate 4 false, []) with
    | .error e => .error e
    | .ok (elems_of_dimension, elems) =>
      let mesh_dimension := set_dimension_loop elems_of_dimension 4 0 cleared_dimension
      if LIBMESH_DIM < 3 ∧ mesh_dimension > LIBMESH_DIM then .error .libmesh_error
      else .ok ⟨elems_of_dimension, mesh_dimension, grid.n_points, elems⟩

end VTKIO

/-! ## `InfPrism12`: sides, connectivity, child vertices -/

/-- A mesh node as far as the element observes it; a `Node*` is told apart by the id of
the node it points to. -/
structure Node where
  id : Nat
deriving DecidableEq

/-- The enumeration `IOPackage` (declared outside the sources); `other` is any further
package. -/
inductive IOPackage where
  | TECPLOT
  | VTK
  | INVALID_IO_PACKAGE
  | other (code : Nat)
deriving DecidableEq

/-- The classes of the face elements `build_side` creates. -/
inductive FaceClass where
  | Tri6
  | InfQuad6
deriving DecidableEq

/-- The element `build_side` returns: a proxy `Side<F, InfPrism12>(this, i)` that refers
to side `i` of the parent, or a new face element of class `F` with its six node
pointers in slot order. -/
inductive SideElem where
  | proxy (cls : FaceClass) (side : Nat)
  | face (cls : FaceClass) (nodes : List Node)
deriving DecidableEq

/-- The sum `x + 1` of `unsigned int` arithmetic. -/
def unsigned_succ (x : Nat) : Nat := (x + 1) % 2 ^ 32

/-- The call `conn.resize(n)` on a `std::vector<unsigned int>`: the first `n` entries are
kept, missing ones are zero. -/
def vector_resize (conn : List Nat) (n : Nat) : List Nat :=
  conn.take n ++ List.replicate (n - conn.length) 0

namespace InfPrism12

/-- The table `InfPrism12::side_nodes_map[4][6]`. -/
def side_nodes_map : List (List Nat) :=
  [ [0, 1, 2, 6, 7, 8],
    [0, 1, 3, 4, 6, 9],
    [1, 2, 4, 5, 7, 10],
    [2, 0, 5, 3, 8, 11] ]

/-- The number of sides of the element (declared in the class header, which is not among
the sources): 4. -/
def n_sides : Nat := 4

/-- The number of sub-elements of the element (declared in the class header, which is not
among the sources): 4. -/
def n_sub_elem : Nat := 4

/-- The table `InfPrism12::_second_order_vertex_child_number[12]`. -/
def _second_order_vertex_child_number : List Nat :=
  [99, 99, 99, 99, 99, 99,
   0, 1, 0,
   0, 1, 0]

/-- The table `InfPrism12::_second_order_vertex_child_index[12]`. -/
def _second_order_vertex_child_index : List Nat :=
  [99, 99, 99, 99, 99, 99,
   1, 2, 2,
   4, 5, 5]

/-- The element itself: its array `_nodes` of node pointers, by local node number. -/
structure Element where
  _nodes : Nat → Node

/-- The pointer to local node `i`, `get_node(i)`. -/
def Element.get_node (e : Element) (i : Nat) : Node := e._nodes i

/-- The global id of local node `i`, `node(i)`. -/
def Element.node (e : Element) (i : Nat) : Nat := (e._nodes i).id

/-- The loop `for (i = 0; i != 6; ++i) if (side_nodes_map[s][i] == n) return true;` of
`is_node_on_side`, entered at index `i` with `count` indices to go; `false` when the
loop runs out. -/
def is_node_on_side_loop (n s : Nat) : Nat → Nat → Bool
  | 0, _ => false
  | count + 1, i =>
    if table_at side_nodes_map s i = n then true
    else is_node_on_side_loop n s count (i + 1)

/-- `InfPrism12::is_node_on_side`: `libmesh_assert_less (s, n_sides());`, then the loop,
then `return false;`. -/
def is_node_on_side (n s : Nat) : Except Abort Bool :=
  if ¬ (s < n_sides) then .error .assert_failed
  else .ok (is_node_on_side_loop n s 6 0)

/-- `InfPrism12::build_side`. -/
def build_side (e : Element) (i : Nat) (proxy : Bool) : Except Abort SideElem :=
  if ¬ (i < n_sides) then .error .assert_failed
  else if proxy then
    match i with
    | 0 => .ok (.proxy .Tri6 i)
    | 1 => .ok (.proxy .InfQuad6 i)
    | 2 => .ok (.proxy .InfQuad6 i)
    | 3 => .ok (.proxy .InfQuad6 i)
    | _ => .error .libmesh_error
  else
    match i with
    | 0 =>
      .ok (.face .Tri6
        [e.get_node 0, e.get_node 1, e.get_node 2, e.get_node 6, e.get_node 7, e.get_node 8])
    | 1 =>
      .ok (.face .InfQuad6
        [e.get_node 0, e.get_node 1, e.get_node 3, e.get_node 4, e.get_node 6, e.get_node 9])
    | 2 =>
      .ok (.face .InfQuad6
        [e.get_node 1, e.get_node 2, e.get_node 4, e.get_node 5, e.get_node 7, e.get_node 10])
    | 3 =>
      .ok (.face .InfQuad6
        [e.get_node 2, e.get_node 0, e.get_node 5, e.get_node 3, e.get_node 8, e.get_node 11])
    | _ => .error .libmesh_error

/-- The eight assignments `conn[k] = this->node(l_k)+1;` of one `case` of
`connectivity`, for the local nodes `l_0, ..., l_7` in this order. -/
def assign_connectivity (e : Element) (conn : List Nat) (l₀ l₁ l₂ l₃ l₄ l₅ l₆ l₇ : Nat) :
    List Nat :=
  (((((((conn.set 0 (unsigned_succ (e.node l₀))).set 1 (unsigned_succ (e.node l₁))).set 2
    (unsigned_succ (e.node l₂))).set 3 (unsigned_succ (e.node l₃))).set 4
    (unsigned_succ (e.node l₄))).set 5 (unsigned_succ (e.node l₅))).set 6
    (unsigned_succ (e.node l₆))).set 7 (unsigned_succ (e.node l₇))

/-- `InfPrism12::connectivity`; the value is the vector `conn` after the call.  (The
assertion on `_nodes` is about the array being allocated, which it is here.) -/
def connectivity (e : Element) (sc : Nat) (iop : IOPackage) (conn : List Nat) :
    Except Abort (List Nat) :=
  if ¬ (sc < n_sub_elem) then .error .assert_failed
  else if iop = .INVALID_IO_PACKAGE then .error .assert_failed
  else
    match iop with
    | .TECPLOT =>
      match sc with
      | 0 => .ok (assign_connectivity e (vector_resize conn 8) 0 6 8 8 3 9 11 11)
      | 1 => .ok (assign_connectivity e (vector_resize conn 8) 6 7 8 8 9 10 11 11)
      | 2 => .ok (assign_connectivity e (vector_resize conn 8) 6 1 7 7 9 4 10 10)
      | 3 => .ok (assign_connectivity e (vector_resize conn 8) 8 7 2 2 11 10 5 5)
      | _ => .error .libmesh_error
    | _ => .error .libmesh_error

/-- The local node numbers that the TECPLOT branch of `connectivity` reads, by
sub-element and position in `conn`. -/
def tecplot_local_nodes : List (List Nat) :=
  [ [0, 6, 8, 8, 3, 9, 11, 11],
    [6, 7, 8, 8, 9, 10, 11, 11],
    [6, 1, 7, 7, 9, 4, 10, 10],
    [8, 7, 2, 2, 11, 10, 5, 5] ]

/-- `InfPrism12::second_order_child_vertex`: the two assertions, then the pair
`(_second_order_vertex_child_number[n], _second_order_vertex_child_index[n])`. -/
def second_order_child_vertex (n : Nat) : Except Abort (Nat × Nat) :=
  if ¬ (n ≥ n_vertices) then .error .assert_failed
  else if ¬ (n < n_nodes) then .error .assert_failed
  else .ok (_second_order_vertex_child_number.getD n 0, _second_order_vertex_child_index.getD n 0)

end InfPrism12

/-! # Theorems -/

/-! ## Lemmas about `std::map` -/

namespace StdMap

variable {V : Type}

theorem findEntries_isSome_iff (l : List (String × V)) (k : String) :
    (findEntries l k).isSome = true ↔ k ∈ l.map Prod.fst := by
  induction l with
  | nil => simp [findEntries]
  | cons kv rest ih =>
    obtain ⟨k', v'⟩ := kv
    by_cases h : k' = k
    · simp [findEntries, h]
    · have h' : ¬ k = k' := fun e => h e.symm
      simp only [findEntries, if_neg h, ih, List.map_cons, List.mem_cons, h', false_or]

theorem findEntries_mem (l : List (String × V)) (k : String) (v : V)
    (h : findEntries l k = some v) : (k, v) ∈ l := by
  induction l with
  | nil => simp [findEntries] at h
  | cons kv rest ih =>
    obtain ⟨k', v'⟩ := kv
    by_cases hk : k' = k
    · simp only [findEntries, if_pos hk, Option.some.injEq] at h
      subst hk; subst h; simp
    · simp only [findEntries, if_neg hk] at h
      exact List.mem_cons_of_mem _ (ih h)

theorem count_ne_zero_iff (m : StdMap V) (k : String) :
    m.count k ≠ 0 ↔ k ∈ m.keys := by
  unfold keys
  rw [← findEntries_isSome_iff]
  unfold count find
  cases findEntries m.entries k <;> simp

theorem count_eq_zero_iff (m : StdMap V) (k : String) :
    m.count k = 0 ↔ m.find k = none := by
  unfold count
  cases m.find k <;> simp

theorem findEntries_insertEntries_self (l : List (String × V)) (k : String) (v : V)
    (h : findEntries l k = none) : findEntries (insertEntries l k v) k = some v := by
  induction l with
  | nil => simp [insertEntries, findEntries]
  | cons kv rest ih =>
    obtain ⟨k', v'⟩ := kv
    have hk : ¬ k' = k := by
      intro e
      simp [findEntries, e] at h
    have hrest : findEntries rest k = none := by
      simpa [findEntries, hk] using h
    unfold insertEntries
    by_cases hl : string_less k k'
    · simp [hl, findEntries]
    · simp [hl, hk, findEntries, ih hrest]

theorem findEntries_insertEntries_other (l : List (String × V)) (k k' : String) (v : V)
    (h : k' ≠ k) : findEntries (insertEntries l k v) k' = findEntries l k' := by
  induction l with
  | nil => simp [insertEntries, findEntries, h.symm]
  | cons kv rest ih =>
    obtain ⟨k₀, v₀⟩ := kv
    unfold insertEntries
    by_cases hl : string_less k k₀
    · simp [hl, findEntries, h.symm]
    · by_cases he : k₀ = k
      · simp only [if_neg hl, if_pos he]
      · simp only [if_neg hl, if_neg he, findEntries, ih]

theorem find_insert_self (m : StdMap V) (k : String) (v : V) (h : m.find k = none) :
    (m.insert k v).find k = some v :=
  findEntries_insertEntries_self m.entries k v h

theorem find_insert_other (m : StdMap V) (k k' : String) (v : V) (h : k' ≠ k) :
    (m.insert k v).find k' = m.find k' :=
  findEntries_insertEntries_other m.entries k k' v h

theorem length_insertEntries (l : List (String × V)) (k : String) (v : V)
    (h : findEntries l k = none) : (insertEntries l k v).length = l.length + 1 := by
  induction l with
  | nil => simp [insertEntries]
  | cons kv rest ih =>
    obtain ⟨k', v'⟩ := kv
    have hk : ¬ k' = k := by
      intro e
      simp [findEntries, e] at h
    have hrest : findEntries rest k = none := by
      simpa [findEntries, hk] using h
    unfold insertEntries
    by_cases hl : string_less k k'
    · simp [hl]
    · simp [hl, hk, ih hrest]

theorem mem_keys_insertEntries (l : List (String × V)) (k k' : String) (v : V) :
    k' ∈ (insertEntries l k v).map Prod.fst ↔ k' = k ∨ k' ∈ l.map Prod.fst := by
  induction l with
  | nil => simp [insertEntries]
  | cons kv rest ih =>
    obtain ⟨k₀, v₀⟩ := kv
    unfold insertEntries
    by_cases hl : string_less k k₀
    · simp [hl]
    · by_cases he : k₀ = k
      · subst he
        simp [hl]
      · simp only [if_neg hl, if_neg he, List.map_cons, List.mem_cons, ih]
        tauto

theorem keys_mapValues (m : StdMap V) (f : String → V → V) :
    (m.mapValues f).keys = m.keys := by
  simp [mapValues, keys, List.map_map, Function.comp_def]

theorem findEntries_map (l : List (String × V)) (f : String → V → V) (k : String) :
    findEntries (l.map (fun kv => (kv.1, f kv.1 kv.2))) k = (findEntries l k).map (f k) := by
  induction l with
  | nil => simp [findEntries]
  | cons kv rest ih =>
    obtain ⟨k', v'⟩ := kv
    by_cases h : k' = k
    · subst h
      simp [findEntries]
    · simp [findEntries, h, ih]

theorem find_mapValues (m : StdMap V) (f : String → V → V) (k : String) :
    (m.mapValues f).find k = (m.find k).map (f k) :=
  findEntries_map m.entries f k

end StdMap

/-! ## Lemmas about `System` -/

namespace System

theorem have_vector_iff (s : System) (vec_name : String) :
    s.have_vector vec_name = true ↔ vec_name ∈ s._vectors.keys := by
  unfold have_vector
  rw [← StdMap.count_ne_zero_iff]
  simp

theorem have_vector_false_iff (s : System) (vec_name : String) :
    s.have_vector vec_name = false ↔ s._vectors.find vec_name = none := by
  unfold have_vector
  rw [← StdMap.count_eq_zero_iff]
  simp

theorem add_vector_closed (s : System) (vec_name : String) (projections : Bool)
    (h : s._can_add_vectors = false) :
    s.add_vector vec_name projections = (.error .LogicError, s) := by
  simp [add_vector, h]

theorem add_vector_existing (s : System) (vec_name : String) (projections : Bool)
    (h : s.have_vector vec_name = true) :
    s.add_vector vec_name projections = (.error .LogicError, s) := by
  unfold add_vector
  by_cases hc : s._can_add_vectors = true <;> simp [hc, h]

theorem add_vector_fresh (s : System) (vec_name : String) (projections : Bool)
    (hc : s._can_add_vectors = true) (h : s.have_vector vec_name = false) :
    s.add_vector vec_name projections =
      (.ok (NumericVector.zero s.n_dofs),
        { s with
          _vectors := s._vectors.insert vec_name (NumericVector.zero s.n_dofs),
          _vector_projections := s._vector_projections.insert vec_name projections }) := by
  simp [add_vector, hc, h]

theorem add_vector_gate (s : System) (vec_name : String) (projections : Bool) :
    (s.add_vector vec_name projections).2._can_add_vectors = s._can_add_vectors := by
  unfold add_vector
  by_cases hc : s._can_add_vectors = true <;>
    by_cases h : s.have_vector vec_name = true <;> simp [hc, h]

theorem add_indexed_gate (s : System) (F : Family) (i : Nat) :
    (s.add_indexed F i).2._can_add_vectors = s._can_add_vectors := by
  unfold add_indexed
  cases s.request_vector (family_vector_name F i) with
  | some v => rfl
  | none => exact add_vector_gate s _ true

theorem add_indexed_closed (s : System) (F : Family) (i : Nat)
    (h : s._can_add_vectors = false) : (s.add_indexed F i).2 = s := by
  unfold add_indexed
  cases s.request_vector (family_vector_name F i) with
  | some v => rfl
  | none => simp [add_vector_closed s _ true h]

theorem add_variable_vectors (s : System) (var : String) (type : FEType)
    (subs : Option (Finset subdomain_id_type)) :
    (s.add_variable var type subs).2._can_add_vectors = s._can_add_vectors ∧
    (s.add_variable var type subs).2._vectors = s._vectors := by
  unfold add_variable
  by_cases h : s.has_variable var = true <;> simp [h]

theorem step_closed (pv : NumericVector → NumericVector) (s : System) (op : Op)
    (h : s._can_add_vectors = false) :
    (s.step pv op)._can_add_vectors = false ∧ (s.step pv op)._vectors.keys = s._vectors.keys := by
  cases op with
  | add_vector vec_name projections =>
    simp [step, add_vector_closed s vec_name projections h, h]
  | add_variable var type subs =>
    simp [step, add_variable_vectors, h]
  | add_indexed F i =>
    simp [step, add_indexed_closed s F i h, h]
  | write_vector vec_name contents =>
    simp [step, write_vector, StdMap.keys_mapValues, h]
  | set_project_solution_on_reinit b => simp [step, set_project_solution_on_reinit, h]
  | activate => simp [step, activate, h]
  | deactivate => simp [step, deactivate, h]
  | init dm => simp [step, init, StdMap.keys_mapValues]
  | reinit dm => simp [step, reinit, project_vectors, StdMap.keys_mapValues, h]
  | restrict_vectors dm =>
    simp [step, restrict_vectors, project_vectors, StdMap.keys_mapValues, h]
  | prolong_vectors dm =>
    simp [step, prolong_vectors, project_vectors, StdMap.keys_mapValues, h]

theorem run_closed (pv : NumericVector → NumericVector) (ops : List Op) :
    ∀ s : System, s._can_add_vectors = false →
      (s.run pv ops)._can_add_vectors = false ∧ (s.run pv ops)._vectors.keys = s._vectors.keys := by
  induction ops with
  | nil => intro s h; exact ⟨h, rfl⟩
  | cons op rest ih =>
    intro s h
    have h1 := step_closed pv s op h
    have h2 := ih (s.step pv op) h1.1
    exact ⟨h2.1, h2.2.trans h1.2⟩

theorem step_open (pv : NumericVector → NumericVector) (s : System) (op : Op)
    (h : s._can_add_vectors = true) (hop : ∀ dm, op ≠ Op.init dm) :
    (s.step pv op)._can_add_vectors = true := by
  cases op with
  | add_vector vec_name projections => simp [step, add_vector_gate, h]
  | add_variable var type subs => simp [step, add_variable_vectors, h]
  | add_indexed F i => simp [step, add_indexed_gate, h]
  | write_vector vec_name contents => simp [step, write_vector, h]
  | set_project_solution_on_reinit b => simp [step, set_project_solution_on_reinit, h]
  | activate => simp [step, activate, h]
  | deactivate => simp [step, deactivate, h]
  | init dm => exact absurd rfl (hop dm)
  | reinit dm => simp [step, reinit, project_vectors, h]
  | restrict_vectors dm => simp [step, restrict_vectors, project_vectors, h]
  | prolong_vectors dm => simp [step, prolong_vectors, project_vectors, h]

theorem run_open (pv : NumericVector → NumericVector) (ops : List Op) :
    ∀ s : System, s._can_add_vectors = true → (∀ op ∈ ops, ∀ dm, op ≠ Op.init dm) →
      (s.run pv ops)._can_add_vectors = true := by
  induction ops with
  | nil => intro s h _; exact h
  | cons op rest ih =>
    intro s h hops
    exact ih (s.step pv op) (step_open pv s op h (hops op (List.mem_cons_self _ _)))
      (fun o ho => hops o (List.mem_cons_of_mem _ ho))

end System

/-! ## Lemmas about names -/

theorem string_less_trans {a b c : String} (h₁ : string_less a b) (h₂ : string_less b c) :
    string_less a c :=
  lt_trans (α := List Char) h₁ h₂

theorem string_less_irrefl (a : String) : ¬ string_less a a :=
  lt_irrefl (α := List Char) a.toList

theorem string_less_of_not_ge {a b : String} (h₁ : ¬ string_less a b) (h₂ : b ≠ a) :
    string_less b a := by
  rcases lt_trichotomy (α := List Char) a.toList b.toList with h | h | h
  · exact absurd h h₁
  · exact absurd (String.toList_inj.1 h).symm h₂
  · exact h

theorem digit_value_digitChar (d : Nat) (h : d < 10) : digit_value (Nat.digitChar d) = d := by
  interval_cases d <;> rfl

theorem toDigitsCore_append (fuel : Nat) : ∀ (n : Nat) (ds : List Char),
    Nat.toDigitsCore 10 fuel n ds = Nat.toDigitsCore 10 fuel n [] ++ ds := by
  induction fuel with
  | zero => intro n ds; simp [Nat.toDigitsCore]
  | succ fuel ih =>
    intro n ds
    simp only [Nat.toDigitsCore]
    by_cases h : n / 10 = 0
    · simp [h]
    · simp only [if_neg h]
      rw [ih (n / 10) (_ :: ds), ih (n / 10) [_]]
      simp

theorem decimal_value_append (l : List Char) (c : Char) :
    decimal_value (l ++ [c]) = 10 * decimal_value l + digit_value c := by
  simp [decimal_value, List.foldl_append]

theorem decimal_value_toDigitsCore (fuel : Nat) : ∀ n : Nat, n < fuel →
    decimal_value (Nat.toDigitsCore 10 fuel n []) = n := by
  induction fuel with
  | zero => intro n h; omega
  | succ fuel ih =>
    intro n hn
    simp only [Nat.toDigitsCore]
    by_cases h : n / 10 = 0
    · simp only [if_pos h]
      have hlt : n < 10 := by omega
      simp [decimal_value, Nat.mod_eq_of_lt hlt, digit_value_digitChar n hlt]
    · simp only [if_neg h]
      rw [toDigitsCore_append, decimal_value_append, ih (n / 10) (by omega),
        digit_value_digitChar _ (Nat.mod_lt _ (by decide))]
      omega

theorem decimal_value_repr (n : Nat) : decimal_value (Nat.repr n).toList = n := by
  simp only [Nat.repr, Nat.toDigits, List.asString, String.toList]
  exact decimal_value_toDigitsCore (n + 1) n (Nat.lt_succ_self n)

theorem repr_injective {i j : Nat} (h : Nat.repr i = Nat.repr j) : i = j :=
  calc i = decimal_value (Nat.repr i).toList := (decimal_value_repr i).symm
    _ = decimal_value (Nat.repr j).toList := by rw [h]
    _ = j := decimal_value_repr j

theorem base_name_not_prefix (F G : Family) (h : F ≠ G) :
    ¬ ((F.base_name ++ "_").toList <+: (G.base_name ++ "_").toList) := by
  cases F <;> cases G <;> first | exact absurd rfl h | decide

theorem family_vector_name_injective {F G : Family} {i j : Nat}
    (h : family_vector_name F i = family_vector_name G j) : F = G ∧ i = j := by
  have hl : (F.base_name ++ "_").toList ++ (Nat.repr i).toList =
      (G.base_name ++ "_").toList ++ (Nat.repr j).toList := by
    have := congrArg String.toList h
    simpa [family_vector_name, String.toList, String.data_append] using this
  by_cases hFG : F = G
  · subst hFG
    refine ⟨rfl, repr_injective ?_⟩
    exact String.toList_inj.1 (List.append_cancel_left hl)
  · exfalso
    have h₁ : (F.base_name ++ "_").toList <+: (F.base_name ++ "_").toList ++ (Nat.repr i).toList :=
      List.prefix_append _ _
    have h₂ : (G.base_name ++ "_").toList <+: (F.base_name ++ "_").toList ++ (Nat.repr i).toList := by
      rw [hl]
      exact List.prefix_append _ _
    rcases List.prefix_or_prefix_of_prefix h₁ h₂ with hp | hp
    · exact base_name_not_prefix F G hFG hp
    · exact base_name_not_prefix G F (fun e => hFG e.symm) hp

theorem family_vector_name_ne {F G : Family} {i j : Nat} (h : (F, i) ≠ (G, j)) :
    family_vector_name G j ≠ family_vector_name F i := by
  intro e
  obtain ⟨h₁, h₂⟩ := family_vector_name_injective e
  exact h (by rw [h₁, h₂])

/-! ## Key order of `std::map` -/

theorem StdMap.pairwise_insertEntries {V : Type} (l : List (String × V)) (k : String) (v : V)
    (h : List.Pairwise string_less (l.map Prod.fst)) :
    List.Pairwise string_less ((StdMap.insertEntries l k v).map Prod.fst) := by
  induction l with
  | nil => simp [StdMap.insertEntries]
  | cons kv rest ih =>
    obtain ⟨k', v'⟩ := kv
    simp only [List.map_cons, List.pairwise_cons] at h
    unfold StdMap.insertEntries
    by_cases hl : string_less k k'
    · simp only [if_pos hl, List.map_cons, List.pairwise_cons]
      refine ⟨?_, h.1, h.2⟩
      intro a ha
      rcases List.mem_cons.1 ha with rfl | ha
      · exact hl
      · exact string_less_trans hl (h.1 a ha)
    · by_cases he : k' = k
      · simp only [if_neg hl, if_pos he, List.map_cons, List.pairwise_cons]
        exact h
      · simp only [if_neg hl, if_neg he, List.map_cons, List.pairwise_cons]
        refine ⟨?_, ih h.2⟩
        intro a ha
        rcases (StdMap.mem_keys_insertEntries rest k a v).1 ha with rfl | ha
        · exact string_less_of_not_ge hl he
        · exact h.1 a ha

/-! ## Lemmas about registration order -/

namespace System

theorem add_vector_keys (s : System) (vec_name : String) (projections : Bool)
    (hc : s._can_add_vectors = true) :
    (∀ n, n ∈ (s.add_vector vec_name projections).2._vectors.keys ↔
      n = vec_name ∨ n ∈ s._vectors.keys) ∧
    (List.Pairwise string_less s._vectors.keys →
      List.Pairwise string_less (s.add_vector vec_name projections).2._vectors.keys) := by
  by_cases h : s.have_vector vec_name = true
  · rw [add_vector_existing s vec_name projections h]
    refine ⟨fun n => ⟨Or.inr, ?_⟩, id⟩
    rintro (rfl | hn)
    · exact (have_vector_iff s n).1 h
    · exact hn
  · have h' : s.have_vector vec_name = false := by simpa using h
    rw [add_vector_fresh s vec_name projections hc h']
    exact ⟨fun n => StdMap.mem_keys_insertEntries _ _ _ _,
      fun hs => StdMap.pairwise_insertEntries _ _ _ hs⟩

theorem add_vectors_keys (regs : List (String × Bool)) :
    ∀ s : System, s._can_add_vectors = true →
      (∀ n, n ∈ (s.add_vectors regs)._vectors.keys ↔
        n ∈ s._vectors.keys ∨ n ∈ regs.map Prod.fst) ∧
      (List.Pairwise string_less s._vectors.keys →
        List.Pairwise string_less (s.add_vectors regs)._vectors.keys) := by
  induction regs with
  | nil => intro s _; simp [add_vectors]
  | cons r rest ih =>
    intro s hc
    have h1 := add_vector_keys s r.1 r.2 hc
    have hc' : (s.add_vector r.1 r.2).2._can_add_vectors = true := by
      rw [add_vector_gate]; exact hc
    have h2 := ih (s.add_vector r.1 r.2).2 hc'
    refine ⟨fun n => ?_, fun hs => h2.2 (h1.2 hs)⟩
    have e : s.add_vectors (r :: rest) = (s.add_vector r.1 r.2).2.add_vectors rest := rfl
    rw [e, h2.1 n, h1.1 n, List.map_cons, List.mem_cons]
    tauto

end System

/-! ## Lemmas about indexed families and projection flags -/

namespace System

theorem add_vector_find_other (s : System) (vec_name k : String) (projections : Bool)
    (h : k ≠ vec_name) :
    (s.add_vector vec_name projections).2._vectors.find k = s._vectors.find k ∧
    (s.add_vector vec_name projections).2._vector_projections.find k =
      s._vector_projections.find k := by
  unfold add_vector
  by_cases hc : s._can_add_vectors = true <;>
    by_cases hv : s.have_vector vec_name = true <;>
    simp [hc, hv, StdMap.find_insert_other _ _ _ _ h]

theorem add_vector_find_present (s : System) (vec_name k : String) (projections : Bool)
    (h : s._vectors.find k ≠ none) :
    (s.add_vector vec_name projections).2._vectors.find k = s._vectors.find k ∧
    (s.add_vector vec_name projections).2._vector_projections.find k =
      s._vector_projections.find k := by
  by_cases hv : s.have_vector vec_name = true
  · rw [add_vector_existing s vec_name projections hv]
    exact ⟨rfl, rfl⟩
  · have hv' : s.have_vector vec_name = false := by simpa using hv
    have hne : k ≠ vec_name := by
      intro e
      subst e
      exact h ((have_vector_false_iff s k).1 hv')
    exact add_vector_find_other s vec_name k projections hne

theorem add_indexed_find_other (s : System) (F : Family) (i : Nat) (k : String)
    (h : k ≠ family_vector_name F i) :
    (s.add_indexed F i).2._vectors.find k = s._vectors.find k ∧
    (s.add_indexed F i).2._vector_projections.find k = s._vector_projections.find k := by
  unfold add_indexed
  cases s.request_vector (family_vector_name F i) with
  | some v => exact ⟨rfl, rfl⟩
  | none => exact add_vector_find_other s _ k true h

theorem add_indexed_find_present (s : System) (F : Family) (i : Nat) (k : String)
    (h : s._vectors.find k ≠ none) :
    (s.add_indexed F i).2._vectors.find k = s._vectors.find k ∧
    (s.add_indexed F i).2._vector_projections.find k = s._vector_projections.find k := by
  unfold add_indexed
  cases s.request_vector (family_vector_name F i) with
  | some v => exact ⟨rfl, rfl⟩
  | none => exact add_vector_find_present s _ k true h

theorem step_unprojected (pv : NumericVector → NumericVector) (s : System) (op : Op)
    (k : String) (h : s._vectors.find k ≠ none)
    (hp : s._vector_projections.find k = some false) :
    (s.step pv op)._vectors.find k ≠ none ∧
    (s.step pv op)._vector_projections.find k = some false := by
  cases op with
  | add_vector vec_name projections =>
    have := add_vector_find_present s vec_name k projections h
    simp only [step]
    rw [this.1, this.2]
    exact ⟨h, hp⟩
  | add_variable var type subs =>
    have hv := (add_variable_vectors s var type subs).2
    refine ⟨by simp only [step]; rw [hv]; exact h, ?_⟩
    simp only [step, add_variable]
    by_cases hh : s.has_variable var = true <;> simp [hh, hp]
  | add_indexed F i =>
    have := add_indexed_find_present s F i k h
    simp only [step]
    rw [this.1, this.2]
    exact ⟨h, hp⟩
  | write_vector vec_name contents =>
    refine ⟨?_, by simpa [step, write_vector] using hp⟩
    simp only [step, write_vector, StdMap.find_mapValues]
    cases hf : s._vectors.find k with
    | none => exact absurd hf h
    | some v => simp
  | set_project_solution_on_reinit b =>
    exact ⟨by simpa [step, set_project_solution_on_reinit] using h,
      by simpa [step, set_project_solution_on_reinit] using hp⟩
  | activate => exact ⟨by simpa [step, activate] using h, by simpa [step, activate] using hp⟩
  | deactivate =>
    exact ⟨by simpa [step, deactivate] using h, by simpa [step, deactivate] using hp⟩
  | init dm =>
    refine ⟨?_, by simpa [step, init] using hp⟩
    simp only [step, init, StdMap.find_mapValues]
    cases hf : s._vectors.find k with
    | none => exact absurd hf h
    | some v => simp
  | reinit dm =>
    refine ⟨?_, by simpa [step, reinit, project_vectors] using hp⟩
    simp only [step, reinit, project_vectors, StdMap.find_mapValues]
    cases hf : s._vectors.find k with
    | none => exact absurd hf h
    | some v => simp
  | restrict_vectors dm =>
    refine ⟨?_, by simpa [step, restrict_vectors, project_vectors] using hp⟩
    simp only [step, restrict_vectors, project_vectors, StdMap.find_mapValues]
    cases hf : s._vectors.find k with
    | none => exact absurd hf h
    | some v => simp
  | prolong_vectors dm =>
    refine ⟨?_, by simpa [step, prolong_vectors, project_vectors] using hp⟩
    simp only [step, prolong_vectors, project_vectors, StdMap.find_mapValues]
    cases hf : s._vectors.find k with
    | none => exact absurd hf h
    | some v => simp

theorem run_unprojected (pv : NumericVector → NumericVector) (k : String) (ops : List Op) :
    ∀ s : System, s._vectors.find k ≠ none → s._vector_projections.find k = some false →
      (s.run pv ops)._vectors.find k ≠ none ∧
      (s.run pv ops)._vector_projections.find k = some false := by
  induction ops with
  | nil => intro s h hp; exact ⟨h, hp⟩
  | cons op rest ih =>
    intro s h hp
    have h1 := step_unprojected pv s op k h hp
    exact ih (s.step pv op) h1.1 h1.2

theorem project_vectors_unprojected (pv : NumericVector → NumericVector) (s : System)
    (dm : DofMap) (k : String) (h : s._vectors.find k ≠ none)
    (hp : s._vector_projections.find k = some false) :
    (project_vectors pv s dm).request_vector k = some (NumericVector.zero dm.n_dofs) := by
  simp only [project_vectors, request_vector, StdMap.find_mapValues]
  cases hf : s._vectors.find k with
  | none => exact absurd hf h
  | some v => simp [hp]

end System

theorem add_indexed_have_vector (s : System) (F : Family) (i : Nat)
    (hc : s._can_add_vectors = true) :
    (s.add_indexed F i).2.have_vector (family_vector_name F i) = true := by
  rw [System.have_vector_iff]
  unfold System.add_indexed
  cases hr : s.request_vector (family_vector_name F i) with
  | some v =>
    have : (s._vectors.find (family_vector_name F i)).isSome = true := by
      have : s._vectors.find (family_vector_name F i) = some v := hr
      simp [this]
    exact (StdMap.findEntries_isSome_iff _ _).1 this
  | none =>
    have hf : s.have_vector (family_vector_name F i) = false :=
      (System.have_vector_false_iff s _).2 hr
    simp only [System.add_vector_fresh s _ true hc hf]
    exact (StdMap.mem_keys_insertEntries _ _ _ _).2 (Or.inl rfl)

/-! ## The two name-keyed maps have the same keys -/

namespace System

theorem step_sync (pv : NumericVector → NumericVector) (s : System) (op : Op)
    (h : ∀ k, s._vectors.find k = none → s._vector_projections.find k = none) :
    ∀ k, (s.step pv op)._vectors.find k = none →
      (s.step pv op)._vector_projections.find k = none := by
  have hadd : ∀ (vec_name : String) (projections : Bool) (k : String),
      (s.add_vector vec_name projections).2._vectors.find k = none →
      (s.add_vector vec_name projections).2._vector_projections.find k = none := by
    intro vec_name projections k
    by_cases hc : s._can_add_vectors = true
    · by_cases hv : s.have_vector vec_name = true
      · rw [add_vector_existing s vec_name projections hv]
        exact h k
      · have hv' : s.have_vector vec_name = false := by simpa using hv
        have hnone := (have_vector_false_iff s vec_name).1 hv'
        by_cases hk : k = vec_name
        · subst hk
          intro hk'
          rw [add_vector_fresh s k projections hc hv'] at hk'
          have := StdMap.find_insert_self s._vectors k (NumericVector.zero s.n_dofs) hnone
          rw [this] at hk'
          exact absurd hk' (by simp)
        · have ho := add_vector_find_other s vec_name k projections hk
          rw [ho.1, ho.2]
          exact h k
    · have hc' : s._can_add_vectors = false := by simpa using hc
      rw [add_vector_closed s vec_name projections hc']
      exact h k
  have hmap : ∀ (f : String → NumericVector → NumericVector) (k : String),
      (s._vectors.mapValues f).find k = none → s._vectors.find k = none := by
    intro f k hk
    rw [StdMap.find_mapValues] at hk
    cases hf : s._vectors.find k with
    | none => rfl
    | some v => rw [hf] at hk; simp at hk
  intro k
  cases op with
  | add_vector vec_name projections => exact hadd vec_name projections k
  | add_variable var type subs =>
    simp only [step, add_variable]
    by_cases hh : s.has_variable var = true
    · simpa [hh] using h k
    · simpa [hh] using h k
  | add_indexed F i =>
    simp only [step, add_indexed]
    cases s.request_vector (family_vector_name F i) with
    | some v => exact h k
    | none => exact hadd _ true k
  | write_vector vec_name contents =>
    intro hk
    exact h k (hmap _ k hk)
  | set_project_solution_on_reinit b => exact h k
  | activate => exact h k
  | deactivate => exact h k
  | init dm =>
    intro hk
    exact h k (hmap _ k hk)
  | reinit dm =>
    intro hk
    exact h k (hmap _ k hk)
  | restrict_vectors dm =>
    intro hk
    exact h k (hmap _ k hk)
  | prolong_vectors dm =>
    intro hk
    exact h k (hmap _ k hk)

theorem run_sync (pv : NumericVector → NumericVector) (ops : List Op) :
    ∀ s : System, (∀ k, s._vectors.find k = none → s._vector_projections.find k = none) →
      ∀ k, (s.run pv ops)._vectors.find k = none →
        (s.run pv ops)._vector_projections.find k = none := by
  induction ops with
  | nil => intro s h; exact h
  | cons op rest ih =>
    intro s h
    exact ih (s.step pv op) (step_sync pv s op h)

end System

/-! ## Theorems about `System::Variable` -/

/-- C1: a variable is active on subdomain `sid` exactly when its restriction set is
empty or contains `sid`; this holds for every id, and id `0` is treated like any
other id (a variable restricted to `{1}` is inactive on `0`, one restricted to
`{0}` is active on `0` and inactive on `1`). -/
theorem active_on_subdomain_iff :
    (∀ (v : Variable) (sid : subdomain_id_type),
      v.active_on_subdomain sid = true ↔
        (v._active_subdomains = ∅ ∨ sid ∈ v._active_subdomains)) ∧
    (∀ (v : Variable),
      v.active_on_subdomain 0 = true ↔
        (v._active_subdomains = ∅ ∨ (0 : subdomain_id_type) ∈ v._active_subdomains)) ∧
    (∀ (n : String) (k : Nat) (t : FEType),
      (Variable.ctor_subdomains n k t {1}).active_on_subdomain 0 = false ∧
      (Variable.ctor_subdomains n k t {0}).active_on_subdomain 0 = true ∧
      (Variable.ctor_subdomains n k t {0}).active_on_subdomain 1 = false) := by
  have key : ∀ (v : Variable) (sid : subdomain_id_type),
      v.active_on_subdomain sid = true ↔
        (v._active_subdomains = ∅ ∨ sid ∈ v._active_subdomains) := by
    intro v sid
    unfold Variable.active_on_subdomain set_empty set_count
    by_cases h : sid ∈ v._active_subdomains <;> simp [h]
  refine ⟨key, fun v => key v 0, ?_⟩
  intro n k t
  refine ⟨?_, ?_, ?_⟩
  · have := (key (Variable.ctor_subdomains n k t {1}) 0).not
    simpa [Variable.ctor_subdomains] using this
  · exact (key (Variable.ctor_subdomains n k t {0}) 0).2 (Or.inr (by simp [Variable.ctor_subdomains]))
  · have := (key (Variable.ctor_subdomains n k t {0}) 1).not
    simpa [Variable.ctor_subdomains] using this

/-- C2: a variable built by the constructor that omits the subdomain set is
implicitly active and active on every subdomain, and for every variable
`implicitly_active` implies `active_on_subdomain sid` for all `sid`. -/
theorem implicitly_active_everywhere :
    (∀ (n : String) (k : Nat) (t : FEType),
      (Variable.ctor n k t).implicitly_active = true ∧
      ∀ sid : subdomain_id_type, (Variable.ctor n k t).active_on_subdomain sid = true) ∧
    (∀ (v : Variable), v.implicitly_active = true →
      ∀ sid : subdomain_id_type, v.active_on_subdomain sid = true) := by
  refine ⟨fun n k t => ⟨?_, fun sid => ?_⟩, fun v hv sid => ?_⟩
  · simp [Variable.ctor, Variable.implicitly_active, set_empty]
  · simp [Variable.ctor, Variable.active_on_subdomain, set_empty]
  · unfold Variable.implicitly_active at hv
    simp [Variable.active_on_subdomain, hv]

/-! ## Theorems about the vector store -/

/-- C3: the "can still add vectors" gate is open on a freshly constructed System and
stays open under every sequence of calls that contains no `init`; while it is open,
`add_vector` of a fresh name succeeds and makes `have_vector` true.  After `init`,
whatever calls follow, the gate is closed, `add_vector` fails (LogicError) leaving the
System as it was, and the set of vector names is the one present at `init`. -/
theorem add_vector_seal_invariant :
    (∀ (name : String) (number : Nat), (System.ctor name number)._can_add_vectors = true) ∧
    (∀ (pv : NumericVector → NumericVector) (name : String) (number : Nat) (ops : List Op),
      (∀ op ∈ ops, ∀ dm, op ≠ Op.init dm) →
        (System.run pv (System.ctor name number) ops)._can_add_vectors = true) ∧
    (∀ (s : System) (vec_name : String) (projections : Bool),
      s._can_add_vectors = true → s.have_vector vec_name = false →
        (s.add_vector vec_name projections).1 = .ok (NumericVector.zero s.n_dofs) ∧
        (s.add_vector vec_name projections).2.have_vector vec_name = true) ∧
    (∀ (pv : NumericVector → NumericVector) (s : System) (dm : DofMap) (ops : List Op)
        (vec_name : String) (projections : Bool),
      (System.run pv (s.init dm) ops).add_vector vec_name projections =
        (.error .LogicError, System.run pv (s.init dm) ops)) ∧
    (∀ (pv : NumericVector → NumericVector) (s : System) (dm : DofMap) (ops : List Op),
      (System.run pv (s.init dm) ops)._can_add_vectors = false ∧
      (System.run pv (s.init dm) ops)._vectors.keys = s._vectors.keys) := by
  refine ⟨fun _ _ => rfl, ?_, ?_, ?_, ?_⟩
  · intro pv name number ops hops
    exact System.run_open pv ops _ rfl hops
  · intro s vec_name projections hc hf
    rw [System.add_vector_fresh s vec_name projections hc hf]
    refine ⟨rfl, ?_⟩
    rw [System.have_vector_iff]
    exact (StdMap.mem_keys_insertEntries _ _ _ _).2 (Or.inl rfl)
  · intro pv s dm ops vec_name projections
    exact System.add_vector_closed _ _ _ (System.run_closed pv ops (s.init dm) rfl).1
  · intro pv s dm ops
    have h := System.run_closed pv ops (s.init dm) rfl
    refine ⟨h.1, h.2.trans ?_⟩
    simp [System.init, StdMap.keys_mapValues]

/-- Witness for C3: on a fresh System `add_vector "v"` succeeds and `have_vector "v"`
holds afterwards. -/
theorem add_vector_seal_invariant_witness :
    ((System.ctor "sys" 0).add_vector "v" true).1
      = .ok (NumericVector.zero (System.ctor "sys" 0).n_dofs) ∧
    ((System.ctor "sys" 0).add_vector "v" true).2.have_vector "v" = true :=
  add_vector_seal_invariant.2.2.1 (System.ctor "sys" 0) "v" true (by decide) (by decide)

/-- C4: `add_vector` with a name that is already a vector name, and `add_variable` with a
name that is already a variable name, fail and return the System exactly as it was
(every data member unchanged). -/
theorem duplicate_name_rejected :
    (∀ (s : System) (vec_name : String) (projections : Bool),
      s.have_vector vec_name = true →
        (∃ e, (s.add_vector vec_name projections).1 = .error e) ∧
        (s.add_vector vec_name projections).2 = s) ∧
    (∀ (s : System) (var : String) (type : FEType)
        (subs : Option (Finset subdomain_id_type)),
      s.has_variable var = true →
        (∃ e, (s.add_variable var type subs).1 = .error e) ∧
        (s.add_variable var type subs).2 = s) := by
  refine ⟨fun s vec_name projections h => ?_, fun s var type subs h => ?_⟩
  · rw [System.add_vector_existing s vec_name projections h]
    exact ⟨⟨_, rfl⟩, rfl⟩
  · simp [System.add_variable, h]

/-- Witness for C4: a second `add_vector "v"` and a second `add_variable "u"` fail and
leave the System unchanged. -/
theorem duplicate_name_rejected_witness :
    ((∃ e, (((System.ctor "sys" 0).add_vector "v" false).2.add_vector "v" true).1 = .error e) ∧
      (((System.ctor "sys" 0).add_vector "v" false).2.add_vector "v" true).2
        = ((System.ctor "sys" 0).add_vector "v" false).2) ∧
    ((∃ e, (((System.ctor "sys" 0).add_variable "u" ⟨1, 0⟩ none).2.add_variable
        "u" ⟨2, 0⟩ (some {3})).1 = .error e) ∧
      (((System.ctor "sys" 0).add_variable "u" ⟨1, 0⟩ none).2.add_variable
        "u" ⟨2, 0⟩ (some {3})).2 = ((System.ctor "sys" 0).add_variable "u" ⟨1, 0⟩ none).2) :=
  ⟨duplicate_name_rejected.1 ((System.ctor "sys" 0).add_vector "v" false).2 "v" true
      (by decide),
    duplicate_name_rejected.2 ((System.ctor "sys" 0).add_variable "u" ⟨1, 0⟩ none).2 "u"
      ⟨2, 0⟩ (some {3}) (by decide)⟩

/-- C5: `have_vector` is a total function; it returns true exactly when the name is a key
of the name-to-vector map, and false for every name when that map is empty. -/
theorem have_vector_iff_key :
    (∀ (s : System) (vec_name : String),
      s.have_vector vec_name = true ↔ vec_name ∈ s._vectors.keys) ∧
    (∀ (s : System) (vec_name : String),
      s.have_vector vec_name = true ↔ ∃ v, (vec_name, v) ∈ s.vectors_range) ∧
    (∀ (s : System) (vec_name : String),
      System.have_vector { s with _vectors := StdMap.empty } vec_name = false) := by
  refine ⟨System.have_vector_iff, fun s vec_name => ?_, fun s vec_name => ?_⟩
  · rw [System.have_vector_iff]
    simp [StdMap.keys, System.vectors_range]
  · simp [System.have_vector, StdMap.count, StdMap.find, StdMap.empty, StdMap.findEntries]

/-- C6: when `have_vector name` is false, `request_vector name` returns no vector and
`get_vector name` fails (NotFound); when it is true, both return the same vector, which
is the one stored under `name`. -/
theorem request_and_get_vector :
    ∀ (s : System) (vec_name : String),
      (s.have_vector vec_name = false →
        s.request_vector vec_name = none ∧ s.get_vector vec_name = .error .NotFound) ∧
      (s.have_vector vec_name = true →
        ∃ v, s.request_vector vec_name = some v ∧ s.get_vector vec_name = .ok v ∧
          (vec_name, v) ∈ s.vectors_range) := by
  intro s vec_name
  constructor
  · intro h
    have hf := (System.have_vector_false_iff s vec_name).1 h
    simp [System.request_vector, System.get_vector, hf]
  · intro h
    cases hf : s._vectors.find vec_name with
    | none =>
      have := (System.have_vector_false_iff s vec_name).2 hf
      rw [h] at this
      exact absurd this (by decide)
    | some v =>
      refine ⟨v, ?_, ?_, ?_⟩
      · simp [System.request_vector, hf]
      · simp [System.get_vector, hf]
      · exact StdMap.findEntries_mem _ _ _ hf

/-- Witness for C6: with only "v" registered, "w" is reported absent by both lookups and
"v" is returned by both. -/
theorem request_and_get_vector_witness :
    (((System.ctor "sys" 0).add_vector "v" true).2.request_vector "w" = none ∧
      ((System.ctor "sys" 0).add_vector "v" true).2.get_vector "w" = .error .NotFound) ∧
    (∃ v, ((System.ctor "sys" 0).add_vector "v" true).2.request_vector "v" = some v ∧
      ((System.ctor "sys" 0).add_vector "v" true).2.get_vector "v" = .ok v ∧
      ("v", v) ∈ ((System.ctor "sys" 0).add_vector "v" true).2.vectors_range) :=
  ⟨(request_and_get_vector ((System.ctor "sys" 0).add_vector "v" true).2 "w").1 (by decide),
    (request_and_get_vector ((System.ctor "sys" 0).add_vector "v" true).2 "v").2 (by decide)⟩

/-- C7 (as stated, refuted): adding "b" and then "a" to a fresh System makes the iteration
from `vectors_begin()` to `vectors_end()` yield "a" before "b", which is not the order of
registration; the same holds for a `_vectors` map filled by `std::map::insert` of "b" and
then "a". -/
theorem vectors_iteration_not_registration_order :
    (((System.ctor "sys" 0).add_vectors [("b", true), ("a", true)]).vectors_range.map Prod.fst
      = ["a", "b"]) ∧
    (((System.ctor "sys" 0).add_vectors [("b", true), ("a", true)]).vectors_range.map Prod.fst
      ≠ ["b", "a"]) ∧
    (System.vectors_range
        { System.ctor "sys" 0 with
          _vectors := (StdMap.empty.insert "b" (NumericVector.zero 0)).insert "a"
            (NumericVector.zero 0) }).map Prod.fst
      = ["a", "b"] := by
  refine ⟨by decide, by decide, by decide⟩

/-- C7 (amended): iterating from `vectors_begin()` to `vectors_end()` visits the pairs in
ascending order of name: whatever sequence of `add_vector` calls is issued on a fresh
System, the names the iteration yields are strictly increasing in the order of
`std::string`, they are exactly the names that were added, and for distinct added names
they are a permutation of them. -/
theorem vectors_iteration_sorted_by_name :
    ∀ (name : String) (number : Nat) (regs : List (String × Bool)),
      List.Pairwise string_less
        (((System.ctor name number).add_vectors regs).vectors_range.map Prod.fst) ∧
      (∀ n, n ∈ ((System.ctor name number).add_vectors regs).vectors_range.map Prod.fst ↔
        n ∈ regs.map Prod.fst) ∧
      ((regs.map Prod.fst).Nodup →
        List.Perm (((System.ctor name number).add_vectors regs).vectors_range.map Prod.fst)
          (regs.map Prod.fst)) := by
  intro name number regs
  have h := System.add_vectors_keys regs (System.ctor name number) rfl
  have hs : List.Pairwise string_less
      (((System.ctor name number).add_vectors regs).vectors_range.map Prod.fst) :=
    h.2 (by simp [System.ctor, StdMap.empty, StdMap.keys])
  have hm : ∀ n, n ∈ ((System.ctor name number).add_vectors regs).vectors_range.map Prod.fst ↔
      n ∈ regs.map Prod.fst := by
    intro n
    have := h.1 n
    simpa [System.ctor, StdMap.empty, StdMap.keys, System.vectors_range] using this
  refine ⟨hs, hm, fun hnd => ?_⟩
  have hnd' : (((System.ctor name number).add_vectors regs).vectors_range.map Prod.fst).Nodup := by
    refine hs.imp_of_mem ?_
    intro a b _ _ hab e
    subst e
    exact string_less_irrefl a hab
  exact (List.perm_ext_iff_of_nodup hnd' hnd).2 hm

/-- Witness for C7 (amended): the three distinct names "c", "a", "b" are iterated as a
permutation of the added names. -/
theorem vectors_iteration_sorted_by_name_witness :
    List.Perm
      (((System.ctor "sys" 0).add_vectors
        [("c", true), ("a", false), ("b", true)]).vectors_range.map Prod.fst)
      ["c", "a", "b"] :=
  (vectors_iteration_sorted_by_name "sys" 0 [("c", true), ("a", false), ("b", true)]).2.2
    (by decide)

/-! ## Theorems about indexed vector families -/

/-- C9: the conventional name of (family, index) is injective, and for (F, i) different
from (G, j) the call `add_F(i)` leaves the vector of (G, j) as it was: neither created
nor changed, with the same projection flag.  In particular creating
`adjoint_solution[1]` on a fresh System creates neither `adjoint_solution[0]` nor
`adjoint_rhs[1]`. -/
theorem indexed_families_isolated :
    (∀ (F G : Family) (i j : Nat),
      family_vector_name F i = family_vector_name G j → F = G ∧ i = j) ∧
    (∀ (s : System) (F G : Family) (i j : Nat), (F, i) ≠ (G, j) →
      (s.add_indexed F i).2.request_vector (family_vector_name G j) =
        s.request_vector (family_vector_name G j) ∧
      (s.add_indexed F i).2.have_vector (family_vector_name G j) =
        s.have_vector (family_vector_name G j) ∧
      (s.add_indexed F i).2._vector_projections.find (family_vector_name G j) =
        s._vector_projections.find (family_vector_name G j)) ∧
    (∀ (name : String) (number : Nat),
      ((System.ctor name number).add_adjoint_solution 1).2.have_vector
        (family_vector_name .adjoint_solution 1) = true ∧
      ((System.ctor name number).add_adjoint_solution 1).2.have_vector
        (family_vector_name .adjoint_solution 0) = false ∧
      ((System.ctor name number).add_adjoint_solution 1).2.have_vector
        (family_vector_name .adjoint_rhs 1) = false) := by
  have hiso : ∀ (s : System) (F G : Family) (i j : Nat), (F, i) ≠ (G, j) →
      (s.add_indexed F i).2.request_vector (family_vector_name G j) =
        s.request_vector (family_vector_name G j) ∧
      (s.add_indexed F i).2.have_vector (family_vector_name G j) =
        s.have_vector (family_vector_name G j) ∧
      (s.add_indexed F i).2._vector_projections.find (family_vector_name G j) =
        s._vector_projections.find (family_vector_name G j) := by
    intro s F G i j hne
    have h := System.add_indexed_find_other s F i _ (family_vector_name_ne hne)
    refine ⟨h.1, ?_, h.2⟩
    simp only [System.have_vector, StdMap.count, h.1]
  refine ⟨fun F G i j h => family_vector_name_injective h, hiso, ?_⟩
  intro name number
  refine ⟨?_, ?_, ?_⟩
  · exact add_indexed_have_vector (System.ctor name number) .adjoint_solution 1 rfl
  · rw [System.add_adjoint_solution,
      (hiso (System.ctor name number) .adjoint_solution .adjoint_solution 1 0 (by decide)).2.1]
    rfl
  · rw [System.add_adjoint_solution,
      (hiso (System.ctor name number) .adjoint_solution .adjoint_rhs 1 1 (by decide)).2.1]
    rfl

/-- Witness for C9: `add_sensitivity_rhs(2)` on a System that already holds
`adjoint_rhs[2]` leaves that vector untouched. -/
theorem indexed_families_isolated_witness :
    (((System.ctor "sys" 0).add_adjoint_rhs 2).2.add_indexed .sensitivity_rhs 2).2.request_vector
        (family_vector_name .adjoint_rhs 2) =
      ((System.ctor "sys" 0).add_adjoint_rhs 2).2.request_vector
        (family_vector_name .adjoint_rhs 2) :=
  (indexed_families_isolated.2.1 ((System.ctor "sys" 0).add_adjoint_rhs 2).2
    .sensitivity_rhs .adjoint_rhs 2 2 (by decide)).1

/-! ## Theorems about topology changes -/

/-- C10: on a System built from the constructor by any calls, let a vector be registered
with `add_vector(name, false)` while vectors can still be added.  Whatever calls follow
(initialization, writes of arbitrary contents into any vector, further registrations,
earlier topology changes), after `reinit`, `restrict_vectors` or `prolong_vectors` on a
DOF map with `n` DOFs the vector has size `n` and every one of its entries is zero. -/
theorem unprojected_vector_zeroed (pv : NumericVector → NumericVector) (name : String)
    (number : Nat) (before : List Op) (vec_name : String) (after : List Op) (dm : DofMap)
    (hc : (System.run pv (System.ctor name number) before)._can_add_vectors = true)
    (hf : (System.run pv (System.ctor name number) before).have_vector vec_name = false) :
    ∀ t ∈ [(System.run pv ((System.run pv (System.ctor name number) before).add_vector
              vec_name false).2 after).reinit pv dm,
           (System.run pv ((System.run pv (System.ctor name number) before).add_vector
              vec_name false).2 after).restrict_vectors pv dm,
           (System.run pv ((System.run pv (System.ctor name number) before).add_vector
              vec_name false).2 after).prolong_vectors pv dm],
      ∃ v, t.request_vector vec_name = some v ∧ t.get_vector vec_name = .ok v ∧
        v.size = dm.n_dofs ∧ ∀ x ∈ v.values, x = 0 := by
  intro t ht
  have hnone := (System.have_vector_false_iff _ vec_name).1 hf
  have hpnone := System.run_sync pv before (System.ctor name number) (fun _ _ => rfl)
    vec_name hnone
  have h0 : ((System.run pv (System.ctor name number) before).add_vector
        vec_name false).2._vectors.find vec_name ≠ none ∧
      ((System.run pv (System.ctor name number) before).add_vector
        vec_name false).2._vector_projections.find vec_name = some false := by
    rw [System.add_vector_fresh _ vec_name false hc hf]
    constructor
    · have := StdMap.find_insert_self _ vec_name
        (NumericVector.zero (System.run pv (System.ctor name number) before).n_dofs) hnone
      simp [this]
    · exact StdMap.find_insert_self _ vec_name false hpnone
  have h1 := System.run_unprojected pv vec_name after _ h0.1 h0.2
  have hz := System.project_vectors_unprojected pv _ dm vec_name h1.1 h1.2
  have ht' : t = System.project_vectors pv (System.run pv
      ((System.run pv (System.ctor name number) before).add_vector vec_name false).2 after)
      dm := by
    simp only [List.mem_cons, List.mem_singleton, List.not_mem_nil, or_false] at ht
    rcases ht with rfl | rfl | rfl <;> rfl
  subst ht'
  refine ⟨NumericVector.zero dm.n_dofs, hz, ?_, ?_, ?_⟩
  · have hz' : (System.project_vectors pv (System.run pv
        ((System.run pv (System.ctor name number) before).add_vector vec_name false).2 after)
        dm)._vectors.find vec_name = some (NumericVector.zero dm.n_dofs) := hz
    simp [System.get_vector, hz']
  · simp [NumericVector.size, NumericVector.zero]
  · intro x hx
    exact List.eq_of_mem_replicate hx

/-- Witness for C10: a vector registered with `project = false`, initialized on 2 DOFs,
overwritten with the entries 5 and 7, is the zero vector of size 3 after a `reinit` on
3 DOFs. -/
theorem unprojected_vector_zeroed_witness :
    ∃ v, ((System.run id ((System.run id (System.ctor "sys" 0)
            [Op.add_vector "u" true]).add_vector "aux" false).2
            [Op.init ⟨2⟩, Op.write_vector "aux" ⟨[5, 7]⟩]).reinit id ⟨3⟩).request_vector "aux"
          = some v ∧
      ((System.run id ((System.run id (System.ctor "sys" 0)
            [Op.add_vector "u" true]).add_vector "aux" false).2
            [Op.init ⟨2⟩, Op.write_vector "aux" ⟨[5, 7]⟩]).reinit id ⟨3⟩).get_vector "aux"
          = .ok v ∧
      v.size = 3 ∧ ∀ x ∈ v.values, x = 0 :=
  unprojected_vector_zeroed id "sys" 0 [Op.add_vector "u" true] "aux"
    [Op.init ⟨2⟩, Op.write_vector "aux" ⟨[5, 7]⟩] ⟨3⟩ (by decide) (by decide) _
    (List.mem_cons_self _ _)

/-! ## Theorems about `InfPrism12` -/

/-- C13: for every child `c < 4` and every child node `i < 12` the entries of row `i` of
`_embedding_matrix[c]` sum to exactly 1, so a parent nodal field with the same value `k`
at all 12 nodes gets the value `k` at node `i` of child `c`. -/
theorem embedding_reproduces_constants (c i : Nat) (hc : c < 4) (hi : i < 12) :
    InfPrism12.embedding_row_sum c i = 1 ∧
    ∀ k : Rat, InfPrism12.child_nodal_value (fun _ => k) c i = k := by
  have hsum : InfPrism12.embedding_row_sum c i = 1 := by
    have hall : ∀ c' < 4, ∀ i' < 12, InfPrism12.embedding_row_sum c' i' = 1 := by decide!
    exact hall c hc i hi
  refine ⟨hsum, fun k => ?_⟩
  have : InfPrism12.child_nodal_value (fun _ => k) c i =
      InfPrism12.embedding_row_sum c i * k := by
    unfold InfPrism12.child_nodal_value InfPrism12.embedding_row_sum
    rw [List.sum_map_mul_right]
  rw [this, hsum, one_mul]

/-- Witness for C13: row 7 of the embedding matrix of child 2. -/
theorem embedding_reproduces_constants_witness :
    InfPrism12.embedding_row_sum 2 7 = 1 ∧
    ∀ k : Rat, InfPrism12.child_nodal_value (fun _ => k) 2 7 = k :=
  embedding_reproduces_constants 2 7 (by decide) (by decide)

/-- C20: for every second-order node `n` in 6..11 and `v` in {0, 1},
`second_order_adjacent_vertex n v` returns the vertex the table comments name
(6: 0,1; 7: 1,2; 8: 0,2; 9: 3,4; 10: 4,5; 11: 3,5); the two vertices of a node are
distinct, and for every base edge `e < 3` the two vertices adjacent to the middle node
`edge_nodes_map[e][2]` are the end nodes `edge_nodes_map[e][0]` and
`edge_nodes_map[e][1]`. -/
theorem second_order_adjacent_vertex_table :
    ([6, 7, 8, 9, 10, 11].map (fun n =>
        (InfPrism12.second_order_adjacent_vertex n 0,
         InfPrism12.second_order_adjacent_vertex n 1)) =
      [(.ok 0, .ok 1), (.ok 1, .ok 2), (.ok 0, .ok 2),
       (.ok 3, .ok 4), (.ok 4, .ok 5), (.ok 3, .ok 5)]) ∧
    (∀ n, 6 ≤ n → n < 12 →
      InfPrism12.second_order_adjacent_vertex n 0 ≠
        InfPrism12.second_order_adjacent_vertex n 1) ∧
    (∀ e, e < 3 →
      InfPrism12.second_order_adjacent_vertex
          (InfPrism12.table_at InfPrism12.edge_nodes_map e 2) 0 =
        .ok (InfPrism12.table_at InfPrism12.edge_nodes_map e 0) ∧
      InfPrism12.second_order_adjacent_vertex
          (InfPrism12.table_at InfPrism12.edge_nodes_map e 2) 1 =
        .ok (InfPrism12.table_at InfPrism12.edge_nodes_map e 1)) := by
  refine ⟨by decide, ?_, ?_⟩
  · intro n h₁ h₂
    interval_cases n <;> decide
  · intro e he
    interval_cases e <;> decide

/-! ## Theorems about the unimplemented solves -/

/-- C14: on the base System each of the nine sensitivity and adjoint entry points fails
with the not-implemented error for every argument, returns no result, and leaves the
System (and its output argument) as it was. -/
theorem base_solves_not_implemented :
    (∀ (s : System) (p : ParameterVector),
      s.assemble_residual_derivatives p = (.error .NotImplemented, s)) ∧
    (∀ (s : System) (p : ParameterVector),
      s.sensitivity_solve p = (.error .NotImplemented, s)) ∧
    (∀ (s : System) (p w : ParameterVector),
      s.weighted_sensitivity_solve p w = (.error .NotImplemented, s)) ∧
    (∀ (s : System) (q : QoISet),
      s.adjoint_solve q = (.error .NotImplemented, s)) ∧
    (∀ (s : System) (p w : ParameterVector) (q : QoISet),
      s.weighted_sensitivity_adjoint_solve p w q = (.error .NotImplemented, s)) ∧
    (∀ (s : System) (q : QoISet) (p : ParameterVector) (d : SensitivityData),
      s.adjoint_qoi_parameter_sensitivity q p d = (.error .NotImplemented, s, d)) ∧
    (∀ (s : System) (q : QoISet) (p : ParameterVector) (d : SensitivityData),
      s.forward_qoi_parameter_sensitivity q p d = (.error .NotImplemented, s, d)) ∧
    (∀ (s : System) (q : QoISet) (p : ParameterVector) (d : SensitivityData),
      s.qoi_parameter_hessian q p d = (.error .NotImplemented, s, d)) ∧
    (∀ (s : System) (q : QoISet) (p v : ParameterVector) (d : SensitivityData),
      s.qoi_parameter_hessian_vector_product q p v d = (.error .NotImplemented, s, d)) :=
  ⟨fun _ _ => rfl, fun _ _ => rfl, fun _ _ _ => rfl, fun _ _ => rfl, fun _ _ _ _ => rfl,
    fun _ _ _ _ => rfl, fun _ _ _ _ => rfl, fun _ _ _ _ => rfl, fun _ _ _ _ _ => rfl⟩

/-! ## Theorems about `DTKAdapter` -/

theorem DTKAdapter.find_sys_loop_some (var_name : String) (l : List System) :
    ∀ (k i : Nat) (sys : System), DTKAdapter.find_sys_loop var_name l k = some (i, sys) →
      k ≤ i ∧ l[i - k]? = some sys ∧ sys.has_variable var_name = true ∧
      ∀ j, j < i - k → ∀ sj, l[j]? = some sj → sj.has_variable var_name = false := by
  induction l with
  | nil => intro k i sys h; simp [DTKAdapter.find_sys_loop] at h
  | cons s rest ih =>
    intro k i sys h
    unfold DTKAdapter.find_sys_loop at h
    by_cases hs : s.has_variable var_name = true
    · simp only [hs, if_true, Option.some.injEq, Prod.mk.injEq] at h
      obtain ⟨rfl, rfl⟩ := h
      refine ⟨le_refl _, by simp, hs, ?_⟩
      intro j hj
      omega
    · simp only [hs] at h
      obtain ⟨h₁, h₂, h₃, h₄⟩ := ih (k + 1) i sys h
      have e : i - k = (i - (k + 1)) + 1 := by omega
      refine ⟨by omega, ?_, h₃, ?_⟩
      · rw [e]
        simpa using h₂
      · intro j hj sj hsj
        cases j with
        | zero =>
          simp only [List.getElem?_cons_zero, Option.some.injEq] at hsj
          subst hsj
          simpa using hs
        | succ j' =>
          simp only [List.getElem?_cons_succ] at hsj
          exact h₄ j' (by omega) sj hsj

theorem DTKAdapter.find_sys_loop_none (var_name : String) (l : List System) :
    ∀ k : Nat, DTKAdapter.find_sys_loop var_name l k = none ↔
      ∀ sys ∈ l, sys.has_variable var_name = false := by
  induction l with
  | nil => intro k; simp [DTKAdapter.find_sys_loop]
  | cons s rest ih =>
    intro k
    unfold DTKAdapter.find_sys_loop
    by_cases hs : s.has_variable var_name = true
    · simp [hs]
    · have hs' : s.has_variable var_name = false := by simpa using hs
      simp [hs', ih (k + 1)]

/-- C19: when `find_sys var_name` returns, the result is the system of index
`i < n_systems()` that has the variable, no system of lower index has it; the call
returns whenever some system has the variable, and it fails on the assertion exactly
when no system of the EquationSystems has a variable of that name. -/
theorem find_sys_first_with_variable (es : EquationSystems) (var_name : String) :
    (∀ (i : Nat) (sys : System), DTKAdapter.find_sys es var_name = .ok (i, sys) →
      i < es.n_systems ∧ es.systems[i]? = some sys ∧ sys.has_variable var_name = true ∧
      ∀ j, j < i → ∀ sj, es.systems[j]? = some sj → sj.has_variable var_name = false) ∧
    ((∃ sys ∈ es.systems, sys.has_variable var_name = true) →
      ∃ i sys, DTKAdapter.find_sys es var_name = .ok (i, sys)) ∧
    (DTKAdapter.find_sys es var_name = .error .assert_failed ↔
      ∀ sys ∈ es.systems, sys.has_variable var_name = false) := by
  refine ⟨?_, ?_, ?_⟩
  · intro i sys h
    unfold DTKAdapter.find_sys at h
    cases hl : DTKAdapter.find_sys_loop var_name es.systems 0 with
    | none => rw [hl] at h; simp at h
    | some found =>
      rw [hl] at h
      simp only [Except.ok.injEq] at h
      subst h
      obtain ⟨_, h₂, h₃, h₄⟩ := DTKAdapter.find_sys_loop_some var_name es.systems 0 i sys hl
      simp only [Nat.sub_zero] at h₂ h₄
      refine ⟨?_, h₂, h₃, h₄⟩
      have := (List.getElem?_eq_some_iff.1 h₂).1
      exact this
  · rintro ⟨sys, hmem, hsys⟩
    unfold DTKAdapter.find_sys
    cases hl : DTKAdapter.find_sys_loop var_name es.systems 0 with
    | none =>
      have := (DTKAdapter.find_sys_loop_none var_name es.systems 0).1 hl sys hmem
      rw [hsys] at this
      exact absurd this (by decide)
    | some found => exact ⟨found.1, found.2, rfl⟩
  · unfold DTKAdapter.find_sys
    cases hl : DTKAdapter.find_sys_loop var_name es.systems 0 with
    | none =>
      simp only [true_iff]
      exact (DTKAdapter.find_sys_loop_none var_name es.systems 0).1 hl
    | some found =>
      constructor
      · intro h
        simp at h
      · intro hall
        have := (DTKAdapter.find_sys_loop_none var_name es.systems 0).2 hall
        rw [hl] at this
        exact absurd this (by simp)

/-- Witness for C19: of two systems, the second of which has the variable "u",
`find_sys "u"` returns the system of index 1. -/
theorem find_sys_first_with_variable_witness :
    ∃ i sys, DTKAdapter.find_sys
      ⟨[System.ctor "a" 0, ((System.ctor "b" 1).add_variable "u" ⟨1, 0⟩ none).2]⟩ "u"
        = .ok (i, sys) :=
  (find_sys_first_with_variable
    ⟨[System.ctor "a" 0, ((System.ctor "b" 1).add_variable "u" ⟨1, 0⟩ none).2]⟩ "u").2.1
    ⟨((System.ctor "b" 1).add_variable "u" ⟨1, 0⟩ none).2, by simp, by decide⟩

/-! ## Theorems about `PetscMatrix` -/

theorem PetscMatrix.clear_times_not_owned (d : Mat → Mat) (n : Nat) :
    ∀ m : PetscMatrix, m._destroy_mat_on_exit = false →
      PetscMatrix.clear_times d n m = (m, []) := by
  induction n with
  | zero => intro m _; rfl
  | succ n ih =>
    intro m h
    have hc : PetscMatrix.clear d m = (m, []) := by simp [PetscMatrix.clear, h]
    simp [PetscMatrix.clear_times, hc, ih m h]

/-- C16: a PetscMatrix constructed from an existing `Mat` has `_destroy_mat_on_exit`
false, holds that `Mat` and is initialized; any number of `clear()` calls, and the
destructor, destroy nothing and leave handle and flags as they were.  A matrix that
owns its `Mat` and is initialized destroys it in `clear()` and is uninitialized
afterwards. -/
theorem clear_respects_ownership :
    (∀ mat : Mat,
      (PetscMatrix.ctor_mat mat)._destroy_mat_on_exit = false ∧
      (PetscMatrix.ctor_mat mat)._mat = mat ∧
      (PetscMatrix.ctor_mat mat).initialized = true) ∧
    (∀ (d : Mat → Mat) (mat : Mat) (n : Nat),
      PetscMatrix.clear_times d n (PetscMatrix.ctor_mat mat) = (PetscMatrix.ctor_mat mat, []) ∧
      PetscMatrix.dtor d (PetscMatrix.ctor_mat mat) = (PetscMatrix.ctor_mat mat, [])) ∧
    (∀ (d : Mat → Mat) (m : PetscMatrix),
      m._destroy_mat_on_exit = true → m.initialized = true →
        (PetscMatrix.clear d m).1.initialized = false ∧
        (PetscMatrix.clear d m).2 = [m._mat]) := by
  refine ⟨fun mat => ⟨rfl, rfl, rfl⟩, fun d mat n => ⟨?_, ?_⟩, fun d m h₁ h₂ => ?_⟩
  · exact PetscMatrix.clear_times_not_owned d n _ rfl
  · simp [PetscMatrix.dtor, PetscMatrix.clear, PetscMatrix.ctor_mat]
  · simp only [PetscMatrix.initialized] at h₂
    simp [PetscMatrix.clear, PetscMatrix.initialized, h₁, h₂]

/-- Witness for C16: an initialized matrix that owns an assembled `Mat` is
uninitialized after `clear()`, which destroyed that `Mat`. -/
theorem clear_respects_ownership_witness :
    (PetscMatrix.clear id ⟨⟨true, []⟩, true, true⟩).1.initialized = false ∧
    (PetscMatrix.clear id ⟨⟨true, []⟩, true, true⟩).2 = [⟨true, []⟩] :=
  clear_respects_ownership.2.2 id ⟨⟨true, []⟩, true, true⟩ rfl rfl

/-! ### Binary search on an ascending row -/

theorem bisect_spec (p : Int → Bool) (a : List Int)
    (hmono : ∀ k k', k ≤ k' → k' < a.length → p (a.getD k' 0) = true →
      p (a.getD k 0) = true) :
    ∀ (fuel first len : Nat), len ≤ fuel → first + len ≤ a.length →
      (∀ k, k < first → p (a.getD k 0) = true) →
      (∀ k, first + len ≤ k → k < a.length → p (a.getD k 0) = false) →
      (∀ k, k < bisect p a fuel first len → p (a.getD k 0) = true) ∧
      (∀ k, bisect p a fuel first len ≤ k → k < a.length → p (a.getD k 0) = false) ∧
      bisect p a fuel first len ≤ a.length := by
  intro fuel
  induction fuel with
  | zero =>
    intro first len hl hb hlo hhi
    have : len = 0 := by omega
    subst this
    exact ⟨hlo, fun k hk => hhi k (by simpa [bisect] using hk), by simpa [bisect] using hb⟩
  | succ fuel ih =>
    intro first len hl hb hlo hhi
    unfold bisect
    by_cases hpos : 0 < len
    · simp only [if_pos hpos]
      have hhalf : len / 2 < len := Nat.div_lt_self hpos (by decide)
      by_cases hp : p (a.getD (first + len / 2) 0) = true
      · simp only [hp, if_true]
        refine ih (first + len / 2 + 1) (len - len / 2 - 1) (by omega) (by omega) ?_ ?_
        · intro k hk
          exact hmono k (first + len / 2) (by omega) (by omega) hp
        · intro k hk hk'
          exact hhi k (by omega) hk'
      · simp only [hp]
        refine ih first (len / 2) (by omega) (by omega) hlo ?_
        intro k hk hk'
        by_contra hc
        have hc' : p (a.getD k 0) = true := by simpa using hc
        exact hp (hmono (first + len / 2) k hk hk' hc')
    · simp only [if_neg hpos]
      have : len = 0 := by omega
      subst this
      exact ⟨hlo, fun k hk => hhi k (by simpa using hk), by simpa using hb⟩

theorem getD_le_of_pairwise (a : List Int) (h : a.Pairwise (· < ·)) (k k' : Nat)
    (hk : k ≤ k') (hk' : k' < a.length) : a.getD k 0 ≤ a.getD k' 0 := by
  rw [List.getD_eq_getElem a 0 hk', List.getD_eq_getElem a 0 (lt_of_le_of_lt hk hk')]
  rcases Nat.eq_or_lt_of_le hk with rfl | hlt
  · exact le_refl _
  · exact le_of_lt (List.pairwise_iff_getElem.1 h k k' (lt_of_le_of_lt hk hk') hk' hlt)

theorem getD_lt_of_pairwise (a : List Int) (h : a.Pairwise (· < ·)) (k k' : Nat)
    (hk : k < k') (hk' : k' < a.length) : a.getD k 0 < a.getD k' 0 := by
  rw [List.getD_eq_getElem a 0 hk', List.getD_eq_getElem a 0 (lt_trans hk hk')]
  exact List.pairwise_iff_getElem.1 h k k' (lt_trans hk hk') hk' hk

theorem lower_bound_spec (a : List Int) (val : Int) (h : a.Pairwise (· < ·)) :
    (∀ k, k < lower_bound a val → a.getD k 0 < val) ∧
    (∀ k, lower_bound a val ≤ k → k < a.length → ¬ a.getD k 0 < val) ∧
    lower_bound a val ≤ a.length := by
  have hs := bisect_spec (fun x => decide (x < val)) a
    (by
      intro k k' hk hk' hp
      simp only [decide_eq_true_eq] at hp ⊢
      exact lt_of_le_of_lt (getD_le_of_pairwise a h k k' hk hk') hp)
    a.length 0 a.length (le_refl _) (by omega) (by intro k hk; omega)
    (by intro k hk hk'; omega)
  refine ⟨fun k hk => ?_, fun k hk hk' => ?_, hs.2.2⟩
  · simpa using hs.1 k hk
  · simpa using hs.2.1 k hk hk'

theorem upper_bound_spec (a : List Int) (val : Int) (h : a.Pairwise (· < ·)) :
    (∀ k, k < upper_bound a val → a.getD k 0 ≤ val) ∧
    (∀ k, upper_bound a val ≤ k → k < a.length → val < a.getD k 0) ∧
    upper_bound a val ≤ a.length := by
  have hs := bisect_spec (fun x => !decide (val < x)) a
    (by
      intro k k' hk hk' hp
      simp only [Bool.not_eq_true', decide_eq_false_iff_not, not_lt] at hp ⊢
      exact le_trans (getD_le_of_pairwise a h k k' hk hk') hp)
    a.length 0 a.length (le_refl _) (by omega) (by intro k hk; omega)
    (by intro k hk hk'; omega)
  refine ⟨fun k hk => ?_, fun k hk hk' => ?_, hs.2.2⟩
  · simpa using hs.1 k hk
  · simpa using hs.2.1 k hk hk'

theorem equal_range_of_mem (a : List Int) (val : Int) (h : a.Pairwise (· < ·))
    (k₀ : Nat) (hk₀ : k₀ < a.length) (hval : a.getD k₀ 0 = val) :
    (equal_range a val).1 = k₀ ∧ (equal_range a val).1 ≠ (equal_range a val).2 := by
  obtain ⟨l₁, l₂, _⟩ := lower_bound_spec a val h
  obtain ⟨u₁, u₂, _⟩ := upper_bound_spec a val h
  have hlb : lower_bound a val ≤ k₀ := by
    by_contra hc
    have := l₁ k₀ (by omega)
    omega
  have hub : k₀ < upper_bound a val := by
    by_contra hc
    have := u₂ k₀ (by omega) hk₀
    omega
  have heq : lower_bound a val = k₀ := by
    by_contra hne
    have hlt : lower_bound a val < k₀ := by omega
    have h₁ := getD_lt_of_pairwise a h _ _ hlt hk₀
    have h₂ := l₂ (lower_bound a val) (le_refl _) (by omega)
    omega
  refine ⟨heq, ?_⟩
  show lower_bound a val ≠ upper_bound a val
  omega

theorem equal_range_of_not_mem (a : List Int) (val : Int) (h : a.Pairwise (· < ·))
    (hval : val ∉ a) : (equal_range a val).1 = (equal_range a val).2 := by
  obtain ⟨l₁, l₂, hl⟩ := lower_bound_spec a val h
  obtain ⟨u₁, u₂, hu⟩ := upper_bound_spec a val h
  show lower_bound a val = upper_bound a val
  rcases Nat.lt_trichotomy (lower_bound a val) (upper_bound a val) with hlt | heq | hgt
  · exfalso
    have h₁ := u₁ _ hlt
    have h₂ := l₂ (lower_bound a val) (le_refl _) (by omega)
    have h₃ : a.getD (lower_bound a val) 0 = val := by omega
    apply hval
    rw [← h₃, List.getD_eq_getElem a 0 (by omega : lower_bound a val < a.length)]
    exact List.getElem_mem _
  · exact heq
  · exfalso
    have h₁ := l₁ _ hgt
    have h₂ := u₂ (upper_bound a val) (le_refl _) (by omega)
    omega

/-- C15: on an initialized, closed matrix whose row `i` has strictly ascending column
indices, `operator()(i, j)` returns the value stored with column `j` when the row
stores column `j`, and 0 when the row does not store column `j`; an index below `2^31`
is its own column number. -/
theorem petsc_entry_or_zero (m : PetscMatrix) (i j : Nat) (row : MatRow)
    (hinit : m.initialized = true) (hclosed : m.closed = .ok true)
    (hrow : MatGetRow m._mat (static_cast_PetscInt i) = some row)
    (hsorted : row.cols.Pairwise (· < ·)) :
    (∀ v, (static_cast_PetscInt j, v) ∈ row.entries → m.get i j = .ok v) ∧
    (static_cast_PetscInt j ∉ row.cols → m.get i j = .ok 0) ∧
    (j < 2 ^ 31 → static_cast_PetscInt j = (j : Int)) := by
  refine ⟨?_, ?_, ?_⟩
  rotate_left 2
  · intro hj
    have h₁ : j % 2 ^ 32 = j := Nat.mod_eq_of_lt (by omega)
    unfold static_cast_PetscInt
    rw [h₁, if_pos hj]
  · intro v hv
    obtain ⟨k₀, hk₀, hent⟩ := List.mem_iff_getElem.1 hv
    have hlen : k₀ < row.cols.length := by simpa [MatRow.cols] using hk₀
    have hcol : row.cols.getD k₀ 0 = static_cast_PetscInt j := by
      rw [List.getD_eq_getElem _ 0 hlen]
      simp [MatRow.cols, hent]
    have hvalk : row.vals.getD k₀ 0 = v := by
      have hlen' : k₀ < row.vals.length := by simpa [MatRow.vals] using hk₀
      rw [List.getD_eq_getElem _ 0 hlen']
      simp [MatRow.vals, hent]
    obtain ⟨he₁, he₂⟩ := equal_range_of_mem row.cols _ hsorted k₀ hlen hcol
    have hn : k₀ < row.ncols := hk₀
    have hcol' : row.cols[k₀]?.getD 0 = static_cast_PetscInt j := by
      rw [← List.getD_eq_getElem?_getD]; exact hcol
    have hvalk' : row.vals[k₀]?.getD 0 = v := by
      rw [← List.getD_eq_getElem?_getD]; exact hvalk
    simp only [PetscMatrix.get, hinit, hclosed, hrow, he₁] at he₂ ⊢
    simp [he₂, hn, hcol', hvalk']
  · intro hnot
    have he := equal_range_of_not_mem row.cols _ hsorted hnot
    simp only [PetscMatrix.get, hinit, hclosed, hrow]
    simp [he]

/-- Witness for C15: in the row with the columns 1, 4, 7 and the values 5, 6, 8, column 4
holds the value 6. -/
theorem petsc_entry_or_zero_witness :
    PetscMatrix.get ⟨⟨true, [⟨[(1, 5), (4, 6), (7, 8)]⟩]⟩, true, false⟩ 0 4 = .ok 6 :=
  (petsc_entry_or_zero ⟨⟨true, [⟨[(1, 5), (4, 6), (7, 8)]⟩]⟩, true, false⟩ 0 4
    ⟨[(1, 5), (4, 6), (7, 8)]⟩ rfl rfl (by decide) (by decide)).1 6 (by decide)

/-! ## Theorems about `VTKIO` -/

theorem VTKIO.rfind_eq_none (l : List Char) (c : Char) (h : c ∉ l) : VTKIO.rfind l c = none := by
  induction l with
  | nil => rfl
  | cons x xs ih =>
    have hx : ¬ x = c := fun e => h (by simp [e])
    have hxs : c ∉ xs := fun e => h (List.mem_cons_of_mem _ e)
    simp [ VTKIO.rfind, ih hxs, hx]

theorem VTKIO.rfind_append (stem rest : List Char) (c : Char) (h : c ∉ rest) :
    VTKIO.rfind (stem ++ c :: rest) c = some stem.length := by
  induction stem with
  | nil => simp [ VTKIO.rfind, VTKIO.rfind_eq_none rest c h]
  | cons x xs ih => simp [ VTKIO.rfind, ih]

theorem VTKIO.extension_check (l : List Char) (w : VTKIO.WriterCall) :
    (match VTKIO.substr l ( VTKIO.rfind l '.') l.length with
      | .error e => (.error e : Except Abort VTKIO.WriterCall)
      | .ok extension =>
        if extension = ['.', 'p', 'v', 't', 'u'] then .ok w else .error .assert_failed) = .ok w ↔
      ∃ stem, l = stem ++ ['.', 'p', 'v', 't', 'u'] := by
  constructor
  · intro h
    cases hr : VTKIO.rfind l '.' with
    | none =>
      rw [hr] at h
      simp [ VTKIO.substr] at h
    | some pos =>
      rw [hr] at h
      by_cases hp : pos > l.length
      · simp [ VTKIO.substr, hp] at h
      · have hd : List.take l.length (List.drop pos l) = List.drop pos l :=
          List.take_of_length_le (by simp)
        simp only [ VTKIO.substr, hp, if_false, hd] at h
        by_cases he : List.drop pos l = ['.', 'p', 'v', 't', 'u']
        · exact ⟨l.take pos, by rw [← he, List.take_append_drop]⟩
        · rw [if_neg he] at h
          exact absurd h (by simp)
  · rintro ⟨stem, rfl⟩
    have hr : VTKIO.rfind (stem ++ ['.', 'p', 'v', 't', 'u']) '.' = some stem.length :=
      VTKIO.rfind_append stem ['p', 'v', 't', 'u'] '.' (by decide)
    have hp : ¬ stem.length > (stem ++ ['.', 'p', 'v', 't', 'u']).length := by simp
    rw [hr]
    simp only [ VTKIO.substr, hp, if_false]
    simp

theorem VTKIO.write_nodal_data_ok_iff (fname : String) (soln : List Number)
    (names : List String) :
    VTKIO.write_nodal_data true fname soln names = .ok ⟨fname, names⟩ ↔
      ∃ stem, fname.toList = stem ++ ['.', 'p', 'v', 't', 'u'] := by
  have hext : ".pvtu".toList = ['.', 'p', 'v', 't', 'u'] := rfl
  rw [← VTKIO.extension_check fname.toList ⟨fname, names⟩]
  unfold VTKIO.write_nodal_data
  rw [hext]
  simp only [not_true_eq_false, if_false]

/-- C17: in a build with VTK, `write_nodal_data` proceeds to the writer exactly when the
file name ends with ".pvtu", which is the case exactly when its text from its last '.'
on is ".pvtu"; every other file name is rejected, and a name without any '.' is
rejected by the `std::out_of_range` of `substr`.  `write` passes the name on with an
empty solution and an empty name list and behaves the same. -/
theorem write_checks_pvtu_extension (fname : String) (soln : List Number)
    (names : List String) :
    ( VTKIO.write_nodal_data true fname soln names = .ok ⟨fname, names⟩ ↔
      ∃ stem, fname.toList = stem ++ ['.', 'p', 'v', 't', 'u']) ∧
    ((¬ ∃ stem, fname.toList = stem ++ ['.', 'p', 'v', 't', 'u']) →
      ∃ e, VTKIO.write_nodal_data true fname soln names = .error e) ∧
    ('.' ∉ fname.toList →
      VTKIO.write_nodal_data true fname soln names = .error .out_of_range) ∧
    VTKIO.write true fname = VTKIO.write_nodal_data true fname [] [] ∧
    ( VTKIO.write true fname = .ok ⟨fname, []⟩ ↔
      ∃ stem, fname.toList = stem ++ ['.', 'p', 'v', 't', 'u']) := by
  refine ⟨ VTKIO.write_nodal_data_ok_iff fname soln names, ?_, ?_, rfl,
    VTKIO.write_nodal_data_ok_iff fname [] []⟩
  · intro hno
    have hext : ".pvtu".toList = ['.', 'p', 'v', 't', 'u'] := rfl
    have hne := mt ( VTKIO.extension_check fname.toList ⟨fname, names⟩).1 hno
    unfold VTKIO.write_nodal_data
    rw [hext]
    simp only [not_true_eq_false, if_false]
    generalize VTKIO.substr fname.toList ( VTKIO.rfind fname.toList '.')
      fname.toList.length = res at hne ⊢
    cases res with
    | error e => exact ⟨e, rfl⟩
    | ok extension =>
      by_cases he : extension = ['.', 'p', 'v', 't', 'u']
      · simp [he] at hne
      · exact ⟨.assert_failed, by simp only [if_neg he]⟩
  · intro hdot
    unfold VTKIO.write_nodal_data
    rw [ VTKIO.rfind_eq_none _ _ hdot]
    rfl

/-- Witness for C17: "out.pvtu" is accepted, and "mesh" (no '.') is rejected. -/
theorem write_checks_pvtu_extension_witness :
    (∃ stem, ("out.pvtu" : String).toList = stem ++ ['.', 'p', 'v', 't', 'u']) ∧
    VTKIO.write_nodal_data true "mesh" [] ["u"] = .error .out_of_range :=
  ⟨(write_checks_pvtu_extension "out.pvtu" [] []).1.1 (by decide),
    (write_checks_pvtu_extension "mesh" [] ["u"]).2.2.1 (by decide)⟩

theorem VTKIO.read_cells_spec (dim : VTKIO.ElemClass → Nat) (cells : List VTKIO.VTKCellType) :
    ∀ (flags : List Bool) (elems : List VTKIO.ElemClass),
      (∀ c ∈ cells, ∃ k, VTKIO.new_elem c = .ok k ∧ dim k < flags.length) →
      ∃ flags' elems', VTKIO.read_cells dim cells (flags, elems) = .ok (flags', elems') ∧
        flags'.length = flags.length ∧
        ∀ d, flags'.getD d false = true ↔
          (flags.getD d false = true ∨
            ∃ c ∈ cells, ∃ k, VTKIO.new_elem c = .ok k ∧ dim k = d) := by
  induction cells with
  | nil =>
    intro flags elems _
    exact ⟨flags, elems, rfl, rfl, fun d => by simp⟩
  | cons c rest ih =>
    intro flags elems h
    obtain ⟨k, hk, hkd⟩ := h c (List.mem_cons_self _ _)
    obtain ⟨flags', elems', hr, hlen, hflags⟩ := ih (flags.set (dim k) true) (elems ++ [k])
      (fun c' hc' => by
        obtain ⟨k', hk', hkd'⟩ := h c' (List.mem_cons_of_mem _ hc')
        exact ⟨k', hk', by simpa using hkd'⟩)
    refine ⟨flags', elems', ?_, by simpa using hlen, fun d => ?_⟩
    · simp only [ VTKIO.read_cells, hk]
      exact hr
    · rw [hflags d]
      have hset : (flags.set (dim k) true).getD d false = true ↔
          (flags.getD d false = true ∨ dim k = d) := by
        simp only [List.getD_eq_getElem?_getD, List.getElem?_set]
        by_cases hd : dim k = d
        · subst hd
          simp [hkd]
        · simp [hd]
      rw [hset]
      constructor
      · rintro ((h₁ | h₁) | ⟨c', hc', k', hk', hd'⟩)
        · exact Or.inl h₁
        · exact Or.inr ⟨c, List.mem_cons_self _ _, k, hk, h₁⟩
        · exact Or.inr ⟨c', List.mem_cons_of_mem _ hc', k', hk', hd'⟩
      · rintro (h₁ | ⟨c', hc', k', hk', hd'⟩)
        · exact Or.inl (Or.inl h₁)
        · rcases List.mem_cons.1 hc' with rfl | hc''
          · rw [hk] at hk'
            simp only [Except.ok.injEq] at hk'
            subst hk'
            exact Or.inl (Or.inr hd')
          · exact Or.inr ⟨c', hc'', k', hk', hd'⟩

theorem VTKIO.set_dimension_loop_spec (flags : List Bool) :
    ∀ (count i md : Nat),
      ( VTKIO.set_dimension_loop flags count i md = md ∧
        ∀ d, i ≤ d → d < i + count → flags.getD d false = false) ∨
      (i ≤ VTKIO.set_dimension_loop flags count i md ∧
        VTKIO.set_dimension_loop flags count i md < i + count ∧
        flags.getD ( VTKIO.set_dimension_loop flags count i md) false = true ∧
        ∀ d, VTKIO.set_dimension_loop flags count i md < d → d < i + count →
          flags.getD d false = false) := by
  intro count
  induction count with
  | zero =>
    intro i md
    exact Or.inl ⟨rfl, fun d h₁ h₂ => by omega⟩
  | succ count ih =>
    intro i md
    simp only [ VTKIO.set_dimension_loop]
    rcases ih (i + 1) (if flags.getD i false = true then i else md) with ⟨h₁, h₂⟩ | ⟨h₁, h₂, h₃, h₄⟩
    · by_cases hf : flags.getD i false = true
      · right
        rw [h₁, if_pos hf]
        refine ⟨le_refl _, by omega, hf, fun d hd hd' => h₂ d (by omega) (by omega)⟩
      · left
        rw [h₁, if_neg hf]
        refine ⟨rfl, fun d hd hd' => ?_⟩
        rcases Nat.eq_or_lt_of_le hd with rfl | hlt
        · simpa using hf
        · exact h₂ d (by omega) (by omega)
    · right
      exact ⟨by omega, by omega, h₃, fun d hd hd' => h₄ d hd (by omega)⟩

/-- C18: on processor 0, in a build for three space dimensions, reading a grid with at
least one cell, all of supported types, succeeds; afterwards `elems_of_dimension[d]` is
true exactly when some cell produced an element of dimension `d`, and the mesh
dimension is the largest `d` in 0..3 whose flag is true. -/
theorem read_sets_largest_dimension (dim : VTKIO.ElemClass → Nat)
    (cleared_dimension LIBMESH_DIM : Nat) (grid : VTKIO.vtkUnstructuredGrid)
    (hdim : ∀ k, dim k < 4) (hcfg : 3 ≤ LIBMESH_DIM) (hcells : grid.cells ≠ [])
    (hsupported : ∀ c ∈ grid.cells, ∃ k, VTKIO.new_elem c = .ok k) :
    ∃ r, VTKIO.read dim 0 cleared_dimension LIBMESH_DIM grid = .ok r ∧
      (∀ d, d < 4 → (r.elems_of_dimension.getD d false = true ↔
        ∃ c ∈ grid.cells, ∃ k, VTKIO.new_elem c = .ok k ∧ dim k = d)) ∧
      r.mesh_dimension < 4 ∧
      r.elems_of_dimension.getD r.mesh_dimension false = true ∧
      (∀ d, d < 4 → r.elems_of_dimension.getD d false = true → d ≤ r.mesh_dimension) := by
  obtain ⟨flags, elems, hr, hlen, hflags⟩ :=
    VTKIO.read_cells_spec dim grid.cells (List.replicate 4 false) []
      (fun c hc => by
        obtain ⟨k, hk⟩ := hsupported c hc
        exact ⟨k, hk, by simpa using hdim k⟩)
  have hflags' : ∀ d, flags.getD d false = true ↔
      ∃ c ∈ grid.cells, ∃ k, VTKIO.new_elem c = .ok k ∧ dim k = d := by
    intro d
    have hrep : (List.replicate 4 false).getD d false = false := by
      rw [List.getD_eq_getElem?_getD, List.getElem?_replicate]
      split <;> rfl
    rw [hflags d, hrep]
    simp only [Bool.false_eq_true, false_or]
  have hsome : ∃ d, d < 4 ∧ flags.getD d false = true := by
    cases hg : grid.cells with
    | nil => exact absurd hg hcells
    | cons c rest =>
      obtain ⟨k, hk⟩ := hsupported c (by rw [hg]; exact List.mem_cons_self _ _)
      exact ⟨dim k, hdim k, (hflags' (dim k)).2 ⟨c, by rw [hg]; exact List.mem_cons_self _ _, k, hk, rfl⟩⟩
  have hloop := VTKIO.set_dimension_loop_spec flags 4 0 cleared_dimension
  have hmax : VTKIO.set_dimension_loop flags 4 0 cleared_dimension < 4 ∧
      flags.getD ( VTKIO.set_dimension_loop flags 4 0 cleared_dimension) false = true ∧
      ∀ d, d < 4 → flags.getD d false = true →
        d ≤ VTKIO.set_dimension_loop flags 4 0 cleared_dimension := by
    rcases hloop with ⟨_, h₂⟩ | ⟨_, h₂, h₃, h₄⟩
    · obtain ⟨d, hd, hf⟩ := hsome
      have := h₂ d (Nat.zero_le _) (by omega)
      rw [hf] at this
      exact absurd this (by decide)
    · refine ⟨by omega, h₃, fun d hd hf => ?_⟩
      by_contra hc
      have := h₄ d (by omega) (by omega)
      rw [hf] at this
      exact absurd this (by decide)
  refine ⟨⟨flags, VTKIO.set_dimension_loop flags 4 0 cleared_dimension, grid.n_points, elems⟩,
    ?_, fun d _ => hflags' d, hmax.1, hmax.2.1, hmax.2.2⟩
  have hnot : ¬ (LIBMESH_DIM < 3 ∧
      VTKIO.set_dimension_loop flags 4 0 cleared_dimension > LIBMESH_DIM) := by omega
  unfold VTKIO.read
  rw [hr]
  simp only [ne_eq, not_true_eq_false, if_false]
  rw [if_neg hnot]

/-- Witness for C18: a grid of a tetrahedron and a hexahedron, both of dimension 3. -/
theorem read_sets_largest_dimension_witness :
    ∃ r, VTKIO.read (fun _ => 3) 0 1 3 ⟨8, [.VTK_TETRA, .VTK_HEXAHEDRON]⟩ = .ok r ∧
      (∀ d, d < 4 → (r.elems_of_dimension.getD d false = true ↔
        ∃ c ∈ [ VTKIO.VTKCellType.VTK_TETRA, .VTK_HEXAHEDRON],
          ∃ k, VTKIO.new_elem c = .ok k ∧ (fun _ => 3) k = d)) ∧
      r.mesh_dimension < 4 ∧
      r.elems_of_dimension.getD r.mesh_dimension false = true ∧
      (∀ d, d < 4 → r.elems_of_dimension.getD d false = true → d ≤ r.mesh_dimension) :=
  read_sets_largest_dimension (fun _ => 3) 1 3 ⟨8, [.VTK_TETRA, .VTK_HEXAHEDRON]⟩
    (fun _ => Nat.lt_succ_self 3) (by decide) (by decide)
    (fun c hc => by
      rcases List.mem_cons.1 hc with rfl | hc
      · exact ⟨_, rfl⟩
      · rcases List.mem_cons.1 hc with rfl | hc
        · exact ⟨_, rfl⟩
        · exact absurd hc (List.not_mem_nil _))

/-! ## Theorems about the send-list -/

theorem mem_std_unique (l : List Nat) : ∀ x, x ∈ std_unique l ↔ x ∈ l := by
  induction l with
  | nil => intro x; simp [std_unique]
  | cons a t ih =>
    intro x
    cases t with
    | nil => simp [std_unique]
    | cons b rest =>
      simp only [std_unique]
      by_cases h : a = b
      · subst h
        simp only [if_true, ih x]
        simp
      · simp only [if_neg h, List.mem_cons, ih x]

theorem pairwise_std_unique (l : List Nat) (h : l.Pairwise (· ≤ ·)) :
    (std_unique l).Pairwise (· < ·) := by
  induction l with
  | nil => simp [std_unique]
  | cons a t ih =>
    cases t with
    | nil => simp [std_unique]
    | cons b rest =>
      have ht := (List.pairwise_cons.1 h).2
      have ha := (List.pairwise_cons.1 h).1
      simp only [std_unique]
      by_cases hab : a = b
      · simp only [if_pos hab]
        exact ih ht
      · simp only [if_neg hab]
        refine List.pairwise_cons.2 ⟨?_, ih ht⟩
        intro x hx
        have hx' := (mem_std_unique (b :: rest) x).1 hx
        have hb : a ≤ b := ha b (List.mem_cons_self _ _)
        have hbx : b ≤ x := by
          rcases List.mem_cons.1 hx' with rfl | hr
          · exact le_refl _
          · exact (List.pairwise_cons.1 ht).1 x hr
        omega

theorem BuildProjectionList.unique_sorted (s : BuildProjectionList) :
    s.unique.send_list.Pairwise (· < ·) :=
  pairwise_std_unique _ (List.sorted_insertionSort (· ≤ ·) s.send_list)

theorem BuildProjectionList.mem_unique (s : BuildProjectionList) (x : Nat) :
    x ∈ s.unique.send_list ↔ x ∈ s.send_list := by
  unfold BuildProjectionList.unique
  rw [mem_std_unique, List.mem_insertionSort]

theorem BuildProjectionList.unique_eq_of_mem (s t : BuildProjectionList)
    (h : ∀ x, x ∈ s.send_list ↔ x ∈ t.send_list) : s.unique = t.unique := by
  have hs := BuildProjectionList.unique_sorted s
  have ht := BuildProjectionList.unique_sorted t
  have hperm : s.unique.send_list.Perm t.unique.send_list := by
    refine (List.perm_ext_iff_of_nodup (List.Pairwise.nodup hs) (List.Pairwise.nodup ht)).2 ?_
    intro x
    rw [BuildProjectionList.mem_unique, BuildProjectionList.mem_unique, h x]
  have := List.eq_of_perm_of_sorted hperm hs ht
  cases hsu : s.unique with
  | mk ls =>
    cases htu : t.unique with
    | mk lt =>
      rw [hsu, htu] at this
      simpa using this

/-- C11: `join` appends the send-list of the other builder to this one.  After
`unique()` the send-list is strictly increasing and holds exactly the indices of the
list before; so after joining, it holds exactly the indices that occur in either partial
list, joining `a` then `b` and joining `b` then `a` give the same list, and so do any two
builders whose lists hold the same indices. -/
theorem send_list_canonical (a b : BuildProjectionList) :
    (a.join b).send_list = a.send_list ++ b.send_list ∧
    (a.join b).unique.send_list.Pairwise (· < ·) ∧
    (a.join b).unique.send_list.Nodup ∧
    (∀ x, x ∈ (a.join b).unique.send_list ↔ x ∈ a.send_list ∨ x ∈ b.send_list) ∧
    (a.join b).unique = (b.join a).unique ∧
    (∀ s t : BuildProjectionList, (∀ x, x ∈ s.send_list ↔ x ∈ t.send_list) →
      s.unique = t.unique) := by
  refine ⟨rfl, BuildProjectionList.unique_sorted _,
    List.Pairwise.nodup (BuildProjectionList.unique_sorted _), fun x => ?_, ?_,
    BuildProjectionList.unique_eq_of_mem⟩
  · rw [BuildProjectionList.mem_unique]
    simp [BuildProjectionList.join]
  · apply BuildProjectionList.unique_eq_of_mem
    intro x
    simp only [BuildProjectionList.join, List.mem_append]
    exact or_comm

/-- Witness for C11: the partial lists 5, 2, 5 and 3, 2 give the send-list 2, 3, 5 in
either order of joining. -/
theorem send_list_canonical_witness :
    (BuildProjectionList.join ⟨[5, 2, 5]⟩ ⟨[3, 2]⟩).unique = ⟨[2, 3, 5]⟩ ∧
    (BuildProjectionList.join ⟨[5, 2, 5]⟩ ⟨[3, 2]⟩).unique =
      (BuildProjectionList.join ⟨[3, 2]⟩ ⟨[5, 2, 5]⟩).unique :=
  ⟨by decide, (send_list_canonical ⟨[5, 2, 5]⟩ ⟨[3, 2]⟩).2.2.2.2.1⟩

/-! ## Theorems about the sides, connectivity and child vertices of `InfPrism12` -/

theorem vector_resize_eight (conn : List Nat) :
    ∃ a b c d e f g k, vector_resize conn 8 = [a, b, c, d, e, f, g, k] := by
  have h : (vector_resize conn 8).length = 8 := by
    simp only [vector_resize, List.length_append, List.length_take, List.length_replicate]
    omega
  generalize vector_resize conn 8 = l at h
  rcases l with _ | ⟨a, _ | ⟨b, _ | ⟨c, _ | ⟨d, _ | ⟨e, _ | ⟨f, _ | ⟨g, _ | ⟨k, _ | ⟨x, r⟩⟩⟩⟩⟩⟩⟩⟩⟩
  all_goals first
    | exact ⟨_, _, _, _, _, _, _, _, rfl⟩
    | (simp only [List.length_cons, List.length_nil] at h; omega)

theorem InfPrism12.assign_connectivity_resized (e : InfPrism12.Element) (conn : List Nat)
    (l₀ l₁ l₂ l₃ l₄ l₅ l₆ l₇ : Nat) :
    InfPrism12.assign_connectivity e (vector_resize conn 8) l₀ l₁ l₂ l₃ l₄ l₅ l₆ l₇ =
      [l₀, l₁, l₂, l₃, l₄, l₅, l₆, l₇].map (fun l => unsigned_succ (e.node l)) := by
  obtain ⟨a, b, c, d, x, f, g, k, h⟩ := vector_resize_eight conn
  rw [h]
  rfl

theorem unsigned_succ_valid (x : Nat) (h : x < 2 ^ 32 - 1) : unsigned_succ x = x + 1 :=
  Nat.mod_eq_of_lt (by omega)

/-- C21: for the TECPLOT package and every sub-element `sc < 4`, whatever `conn` held
before, `connectivity` leaves exactly 8 entries in `conn`; entry `k` is the unsigned sum
of 1 and the global id of the local node `tecplot_local_nodes[sc][k]`, which is one of
the 12 nodes of the element, and equals that id plus 1 for ids below the largest
unsigned value; entries 2 and 3 are equal and entries 6 and 7 are equal; each
sub-element uses six distinct local nodes, and the four sub-elements together use all
12 local nodes. -/
theorem tecplot_connectivity_collapsed_hex (e : InfPrism12.Element) (conn : List Nat)
    (sc : Nat) (hsc : sc < 4) :
    ∃ r, InfPrism12.connectivity e sc .TECPLOT conn = .ok r ∧
      r.length = 8 ∧
      r = (InfPrism12.tecplot_local_nodes.getD sc []).map (fun l => unsigned_succ (e.node l)) ∧
      (∀ l ∈ InfPrism12.tecplot_local_nodes.getD sc [], l < 12) ∧
      ((∀ l, l < 12 → e.node l < 2 ^ 32 - 1) →
        r = (InfPrism12.tecplot_local_nodes.getD sc []).map (fun l => e.node l + 1)) ∧
      r.getD 2 0 = r.getD 3 0 ∧ r.getD 6 0 = r.getD 7 0 ∧
      (InfPrism12.tecplot_local_nodes.getD sc []).dedup.length = 6 ∧
      (∀ l, l < 12 → ∃ sc', sc' < 4 ∧ l ∈ InfPrism12.tecplot_local_nodes.getD sc' []) := by
  have hall : ∀ l, l < 12 → ∃ sc', sc' < 4 ∧ l ∈ InfPrism12.tecplot_local_nodes.getD sc' [] := by
    decide
  have hvalid : ∀ (ls : List Nat), (∀ l ∈ ls, l < 12) →
      (∀ l, l < 12 → e.node l < 2 ^ 32 - 1) →
      ls.map (fun l => unsigned_succ (e.node l)) = ls.map (fun l => e.node l + 1) := by
    intro ls hls hv
    apply List.map_congr_left
    intro l hl
    exact unsigned_succ_valid _ (hv l (hls l hl))
  have hconn : InfPrism12.connectivity e sc .TECPLOT conn =
      .ok ((InfPrism12.tecplot_local_nodes.getD sc []).map (fun l => unsigned_succ (e.node l))) := by
    interval_cases sc <;>
      simp only [InfPrism12.connectivity, InfPrism12.n_sub_elem,
        InfPrism12.assign_connectivity_resized] <;> rfl
  have hlt : ∀ l ∈ InfPrism12.tecplot_local_nodes.getD sc [], l < 12 := by
    interval_cases sc <;> decide
  refine ⟨_, hconn, ?_, rfl, hlt, hvalid _ hlt, ?_, ?_, ?_, hall⟩
  · interval_cases sc <;> rfl
  · interval_cases sc <;> rfl
  · interval_cases sc <;> rfl
  · interval_cases sc <;> decide

/-- Witness for C21: sub-element 2 of an element whose local node `l` has the global id
`100 + l`. -/
theorem tecplot_connectivity_collapsed_hex_witness :
    ∃ r, InfPrism12.connectivity ⟨fun l => ⟨100 + l⟩⟩ 2 .TECPLOT [7] = .ok r ∧
      r.length = 8 ∧
      r = (InfPrism12.tecplot_local_nodes.getD 2 []).map
        (fun l => unsigned_succ (InfPrism12.Element.node ⟨fun l => ⟨100 + l⟩⟩ l)) ∧
      (∀ l ∈ InfPrism12.tecplot_local_nodes.getD 2 [], l < 12) ∧
      ((∀ l, l < 12 → InfPrism12.Element.node ⟨fun l => ⟨100 + l⟩⟩ l < 2 ^ 32 - 1) →
        r = (InfPrism12.tecplot_local_nodes.getD 2 []).map
          (fun l => InfPrism12.Element.node ⟨fun l => ⟨100 + l⟩⟩ l + 1)) ∧
      r.getD 2 0 = r.getD 3 0 ∧ r.getD 6 0 = r.getD 7 0 ∧
      (InfPrism12.tecplot_local_nodes.getD 2 []).dedup.length = 6 ∧
      (∀ l, l < 12 → ∃ sc', sc' < 4 ∧ l ∈ InfPrism12.tecplot_local_nodes.getD sc' []) :=
  tecplot_connectivity_collapsed_hex ⟨fun l => ⟨100 + l⟩⟩ [7] 2 (by decide)

theorem InfPrism12.is_node_on_side_iff (n s : Nat) (hs : s < 4) :
    InfPrism12.is_node_on_side n s = .ok true ↔
      ∃ j, j < 6 ∧ InfPrism12.table_at InfPrism12.side_nodes_map s j = n := by
  have hloop : ∀ (count i : Nat),
      InfPrism12.is_node_on_side_loop n s count i = true ↔
        ∃ j, i ≤ j ∧ j < i + count ∧ InfPrism12.table_at InfPrism12.side_nodes_map s j = n := by
    intro count
    induction count with
    | zero =>
      intro i
      simp only [InfPrism12.is_node_on_side_loop, Bool.false_eq_true, false_iff]
      rintro ⟨j, h₁, h₂, _⟩
      omega
    | succ count ih =>
      intro i
      simp only [InfPrism12.is_node_on_side_loop]
      by_cases h : InfPrism12.table_at InfPrism12.side_nodes_map s i = n
      · simp only [if_pos h, true_iff]
        exact ⟨i, le_refl _, by omega, h⟩
      · rw [if_neg h, ih (i + 1)]
        constructor
        · rintro ⟨j, h₁, h₂, h₃⟩
          exact ⟨j, by omega, by omega, h₃⟩
        · rintro ⟨j, h₁, h₂, h₃⟩
          have : j ≠ i := fun e => h (e ▸ h₃)
          exact ⟨j, by omega, by omega, h₃⟩
  have hs' : s < InfPrism12.n_sides := hs
  simp only [InfPrism12.is_node_on_side, hs', not_true_eq_false, if_false, Except.ok.injEq]
  rw [hloop 6 0]
  constructor
  · rintro ⟨j, _, h₂, h₃⟩
    exact ⟨j, by omega, h₃⟩
  · rintro ⟨j, h₂, h₃⟩
    exact ⟨j, Nat.zero_le _, by omega, h₃⟩

/-- C22: for every side `s < 4`, `build_side(s, false)` returns a new face element (a
Tri6 for side 0, an InfQuad6 otherwise) whose node `j`, for `j < 6`, is the node
`side_nodes_map[s][j]` of the parent.  `is_node_on_side(n, s)` is true exactly when `n`
is an entry of `side_nodes_map[s]`; hence, for a parent with 12 different nodes, exactly
for the parent nodes `n < 12` that are nodes of the built face. -/
theorem build_side_agrees_with_side_nodes_map (e : InfPrism12.Element) (s : Nat)
    (hs : s < 4) :
    InfPrism12.build_side e s false =
      .ok (.face (if s = 0 then .Tri6 else .InfQuad6)
        ((List.range 6).map
          (fun j => e.get_node (InfPrism12.table_at InfPrism12.side_nodes_map s j)))) ∧
    (∀ n, InfPrism12.is_node_on_side n s = .ok true ↔
      ∃ j, j < 6 ∧ InfPrism12.table_at InfPrism12.side_nodes_map s j = n) ∧
    ((∀ a b, a < 12 → b < 12 → e.get_node a = e.get_node b → a = b) →
      ∀ n, n < 12 → ∀ cls nodes, InfPrism12.build_side e s false = .ok (.face cls nodes) →
        (InfPrism12.is_node_on_side n s = .ok true ↔ e.get_node n ∈ nodes)) := by
  have hbuild : InfPrism12.build_side e s false =
      .ok (.face (if s = 0 then .Tri6 else .InfQuad6)
        ((List.range 6).map
          (fun j => e.get_node (InfPrism12.table_at InfPrism12.side_nodes_map s j)))) := by
    interval_cases s <;> rfl
  have hlt : ∀ j, j < 6 → InfPrism12.table_at InfPrism12.side_nodes_map s j < 12 := by
    interval_cases s <;> decide
  refine ⟨hbuild, fun n => InfPrism12.is_node_on_side_iff n s hs, ?_⟩
  intro hinj n hn cls nodes hface
  rw [hbuild] at hface
  simp only [Except.ok.injEq, SideElem.face.injEq] at hface
  rw [InfPrism12.is_node_on_side_iff n s hs, ← hface.2]
  simp only [List.mem_map, List.mem_range]
  constructor
  · rintro ⟨j, hj, rfl⟩
    exact ⟨j, hj, rfl⟩
  · rintro ⟨j, hj, hnode⟩
    exact ⟨j, hj, hinj _ _ (hlt j hj) hn hnode⟩

/-- Witness for C22: side 2 of an element whose local node `l` has the global id
`100 + l`. -/
theorem build_side_agrees_with_side_nodes_map_witness :
    InfPrism12.build_side ⟨fun l => ⟨100 + l⟩⟩ 2 false =
      .ok (.face .InfQuad6 [⟨101⟩, ⟨102⟩, ⟨104⟩, ⟨105⟩, ⟨107⟩, ⟨110⟩]) ∧
    (InfPrism12.is_node_on_side 7 2 = .ok true ↔
      ∃ j, j < 6 ∧ InfPrism12.table_at InfPrism12.side_nodes_map 2 j = 7) :=
  ⟨(build_side_agrees_with_side_nodes_map ⟨fun l => ⟨100 + l⟩⟩ 2 (by decide)).1,
    (build_side_agrees_with_side_nodes_map ⟨fun l => ⟨100 + l⟩⟩ 2 (by decide)).2.1 7⟩

/-- C23: for every second-order node `n` in 6..11, `second_order_child_vertex n` returns
a pair `(c, k)` with `c < 4` and `k < 6`, and row `k` of `_embedding_matrix[c]` has 1 in
column `n` and 0 in every other column. -/
theorem second_order_child_vertex_unit_row (n : Nat) (h₁ : 6 ≤ n) (h₂ : n < 12) :
    ∃ c k, InfPrism12.second_order_child_vertex n = .ok (c, k) ∧ c < 4 ∧ k < 6 ∧
      ∀ j, j < 12 → InfPrism12.embedding_matrix c k j = if j = n then 1 else 0 := by
  interval_cases n
  · exact ⟨0, 1, rfl, by decide, by decide, by decide!⟩
  · exact ⟨1, 2, rfl, by decide, by decide, by decide!⟩
  · exact ⟨0, 2, rfl, by decide, by decide, by decide!⟩
  · exact ⟨0, 4, rfl, by decide, by decide, by decide!⟩
  · exact ⟨1, 5, rfl, by decide, by decide, by decide!⟩
  · exact ⟨0, 5, rfl, by decide, by decide, by decide!⟩

/-- Witness for C23: node 10 is vertex 5 of child 1. -/
theorem second_order_child_vertex_unit_row_witness :
    ∃ c k, InfPrism12.second_order_child_vertex 10 = .ok (c, k) ∧ c < 4 ∧ k < 6 ∧
      ∀ j, j < 12 → InfPrism12.embedding_matrix c k j = if j = 10 then 1 else 0 :=
  second_order_child_vertex_unit_row 10 (by decide) (by decide)

end LibMesh
